import Mathlib

/-!
# Verification of getSiteLinks.py against its specification

Shallow embedding of `src/getSiteLinks.py` (a Scrapy-based crawler).  Pure
pieces of the program (the date normalizer `parseAndFormatDate`, the output
file naming in `spiderCustom.closed`, the `updated`-field resolution in
`spiderCustom.parse`) are translated into executable Lean functions; the
crawl loop (`startRequests`/`parse`) is modelled as a step function on an
explicit frontier state.  External collaborators (the HTTP fetcher, the
HTML/XPath query capability, Scrapy request scheduling and its depth/offsite
middlewares, the RFC-2822 header parser `email.utils.parsedate_to_datetime`)
are passed in as oracle parameters, mirroring the specification's "external
collaborator" boundary.

The date normalizer calls `datetime.strptime` / `datetime.strftime`; those
CPython semantics are embedded faithfully: each format string is a token
list, each directive matches with the exact regular-expression alternatives
CPython's `_strptime` uses (e.g. `%Y` is exactly four digits, `%m` is
`1[0-2]|0[1-9]|[1-9]`), matching is case-insensitive, the first
(backtracking-order) regex match is taken and must consume the whole input,
and the resulting fields must form a valid `datetime` (month/day ranges,
leap years, year 1..9999, seconds at most 59, UTC offset strictly below 24
hours).  `strftime("%Y-%m-%d")` is modelled as on glibc/CPython-Linux:
`%Y` prints the year unpadded, `%m`/`%d` zero-padded to two digits.
-/

namespace GSL

/-! ## Characters, digits, Python `str.strip` -/

/-- ASCII whitespace as recognised by Python's `str.strip()` and by the
`\s` class used for whitespace in `_strptime` format regexes. -/
def pyWs (c : Char) : Bool :=
  c = ' ' || c = '\t' || c = '\n' || c = '\x0d' || c = '\x0b' || c = '\x0c'

/-- Python `str.strip()` on a character list. -/
def stripChars (cs : List Char) : List Char :=
  ((cs.dropWhile pyWs).reverse.dropWhile pyWs).reverse

/-- Python `str.strip()`. -/
def pyStrip (s : String) : String := ⟨stripChars s.data⟩

def isDigitCh (c : Char) : Bool := 48 ≤ c.toNat && c.toNat ≤ 57

def digitVal (c : Char) : Nat := c.toNat - 48

def chBetween (lo hi c : Char) : Bool := lo.toNat ≤ c.toNat && c.toNat ≤ hi.toNat

def digitChar : Nat → Char
  | 0 => '0' | 1 => '1' | 2 => '2' | 3 => '3' | 4 => '4'
  | 5 => '5' | 6 => '6' | 7 => '7' | 8 => '8' | 9 => '9'
  | _ => '*'

/-- Fuel-driven helper for `natChars` (structural recursion so that the
kernel can evaluate it). -/
def natCharsF : Nat → Nat → List Char
  | 0, _ => []
  | fuel + 1, n => if n < 10 then [digitChar n] else natCharsF fuel (n / 10) ++ [digitChar (n % 10)]

/-- Decimal representation of a natural number, most significant digit
first, no leading zeros (the output of `"%d" % n` / `str(n)`). -/
def natChars (n : Nat) : List Char := natCharsF (n + 1) n

/-- Python `f"{n:02d}"`: zero-pad to width two. -/
def pad2 (n : Nat) : List Char := if n < 10 then ['0', digitChar n] else natChars n

/-- `datetime.strftime("%Y-%m-%d")` on glibc: unpadded year, two-digit
zero-padded month and day. -/
def fmtDateChars (y m d : Nat) : List Char :=
  natChars y ++ '-' :: (pad2 m ++ '-' :: pad2 d)

def fmtDate (y m d : Nat) : String := ⟨fmtDateChars y m d⟩

/-! ## The `_strptime` matching engine

Each CPython `strptime` directive becomes a token.  A token offers a list
of ways to match a prefix of the input, in the exact alternation order of
the CPython regex for that directive; the whole format matches by
depth-first search over those alternatives (this is precisely what a
backtracking regex engine does).  The first complete match of the token
sequence is taken; `strptime` then requires that it consumed the entire
input (CPython compares `found.end()` with `len(data_string)` and raises
otherwise, *without* resuming the search). -/

/-- Captured fields of a `strptime` match (a `found_dict`). -/
structure Caps where
  y : Option Nat := none
  mo : Option Nat := none
  dy : Option Nat := none
  hh : Option Nat := none
  mi : Option Nat := none
  ss : Option Nat := none
  zoff : Option Int := none

/-- `%m`: `(1[0-2]|0[1-9]|[1-9])`. -/
def altsM : List Char → List (Nat × List Char)
  | c1 :: c2 :: rest =>
      (if c1 = '1' && chBetween '0' '2' c2 then [(10 + digitVal c2, rest)] else []) ++
      (if c1 = '0' && chBetween '1' '9' c2 then [(digitVal c2, rest)] else []) ++
      (if chBetween '1' '9' c1 then [(digitVal c1, c2 :: rest)] else [])
  | [c1] => if chBetween '1' '9' c1 then [(digitVal c1, [])] else []
  | [] => []

/-- `%d`: `(3[0-1]|[1-2]\d|0[1-9]|[1-9]| [1-9])`. -/
def altsD : List Char → List (Nat × List Char)
  | c1 :: c2 :: rest =>
      (if c1 = '3' && chBetween '0' '1' c2 then [(30 + digitVal c2, rest)] else []) ++
      (if chBetween '1' '2' c1 && isDigitCh c2 then
        [(10 * digitVal c1 + digitVal c2, rest)] else []) ++
      (if c1 = '0' && chBetween '1' '9' c2 then [(digitVal c2, rest)] else []) ++
      (if chBetween '1' '9' c1 then [(digitVal c1, c2 :: rest)] else []) ++
      (if c1 = ' ' && chBetween '1' '9' c2 then [(digitVal c2, rest)] else [])
  | [c1] => if chBetween '1' '9' c1 then [(digitVal c1, [])] else []
  | [] => []

/-- `%Y`: `(\d\d\d\d)` — exactly four digits in CPython. -/
def altsY : List Char → List (Nat × List Char)
  | c1 :: c2 :: c3 :: c4 :: rest =>
      if isDigitCh c1 && isDigitCh c2 && isDigitCh c3 && isDigitCh c4 then
        [(((digitVal c1 * 10 + digitVal c2) * 10 + digitVal c3) * 10 + digitVal c4, rest)]
      else []
  | _ => []

/-- `%H`: `(2[0-3]|[0-1]\d|\d)`. -/
def altsH : List Char → List (Nat × List Char)
  | c1 :: c2 :: rest =>
      (if c1 = '2' && chBetween '0' '3' c2 then [(20 + digitVal c2, rest)] else []) ++
      (if chBetween '0' '1' c1 && isDigitCh c2 then
        [(10 * digitVal c1 + digitVal c2, rest)] else []) ++
      (if isDigitCh c1 then [(digitVal c1, c2 :: rest)] else [])
  | [c1] => if isDigitCh c1 then [(digitVal c1, [])] else []
  | [] => []

/-- `%M`: `([0-5]\d|\d)`. -/
def altsMin : List Char → List (Nat × List Char)
  | c1 :: c2 :: rest =>
      (if chBetween '0' '5' c1 && isDigitCh c2 then
        [(10 * digitVal c1 + digitVal c2, rest)] else []) ++
      (if isDigitCh c1 then [(digitVal c1, c2 :: rest)] else [])
  | [c1] => if isDigitCh c1 then [(digitVal c1, [])] else []
  | [] => []

/-- `%S`: `(6[0-1]|[0-5]\d|\d)`. -/
def altsS : List Char → List (Nat × List Char)
  | c1 :: c2 :: rest =>
      (if c1 = '6' && chBetween '0' '1' c2 then [(60 + digitVal c2, rest)] else []) ++
      (if chBetween '0' '5' c1 && isDigitCh c2 then
        [(10 * digitVal c1 + digitVal c2, rest)] else []) ++
      (if isDigitCh c1 then [(digitVal c1, c2 :: rest)] else [])
  | [c1] => if isDigitCh c1 then [(digitVal c1, [])] else []
  | [] => []

/-- Case-insensitive character comparison (the regexes are compiled with
`re.IGNORECASE`). -/
def lowerEq (a b : Char) : Bool := a.toLower = b.toLower

/-- Case-insensitively strip a fixed word from the front of the input. -/
def stripWordCI : List Char → List Char → Option (List Char)
  | [], cs => some cs
  | _ :: _, [] => none
  | p :: ps, c :: cs => if lowerEq p c then stripWordCI ps cs else none

/-- Match one name out of an alternation of fixed words (the
`__seqToRE` construction), in the regex's alternation order. -/
def nameAlts (names : List (String × Nat)) (cs : List Char) : List (Nat × List Char) :=
  names.filterMap fun n => (stripWordCI n.1.data cs).map fun rest => (n.2, rest)

/-- `%B` alternation, in CPython's longest-first order:
`september|february|november|december|january|october|august|march|april|june|july|may`. -/
def fullMonths : List (String × Nat) :=
  [("september", 9), ("february", 2), ("november", 11), ("december", 12),
   ("january", 1), ("october", 10), ("august", 8), ("march", 3), ("april", 4),
   ("june", 6), ("july", 7), ("may", 5)]

/-- `%b` alternation: `jan|feb|mar|apr|may|jun|jul|aug|sep|oct|nov|dec`. -/
def abbrMonths : List (String × Nat) :=
  [("jan", 1), ("feb", 2), ("mar", 3), ("apr", 4), ("may", 5), ("jun", 6),
   ("jul", 7), ("aug", 8), ("sep", 9), ("oct", 10), ("nov", 11), ("dec", 12)]

/-- `%a` alternation: `mon|tue|wed|thu|fri|sat|sun` (the parsed weekday is
not cross-checked against the date, so its value is irrelevant). -/
def weekdayNames : List (String × Nat) :=
  [("mon", 0), ("tue", 0), ("wed", 0), ("thu", 0), ("fri", 0), ("sat", 0), ("sun", 0)]

/-- `%Z` alternation under the C/UTC locale: `gmt|utc` (locale-specific
local-zone names are omitted; no claim depends on them). -/
def tzNames : List (String × Nat) := [("gmt", 0), ("utc", 0)]

/-- Whitespace runs in a format become `\s+`: one or more whitespace
characters, greedy (longest consumption first). -/
def altsWs (cs : List Char) : List (List Char) :=
  let k := (cs.takeWhile pyWs).length
  (List.range k).map (fun i => cs.drop (k - i))

/-- `:?` — greedy optional colon: with the colon first, then without. -/
def colonOpt (cs : List Char) : List (List Char) :=
  match cs with
  | ':' :: rest => [rest, ':' :: rest]
  | _ => [cs]

/-- `[0-5]\d` (minutes/seconds of a `%z` offset). -/
def lowSixty : List Char → Option (Nat × List Char)
  | a :: b :: rest =>
      if chBetween '0' '5' a && isDigitCh b then some (10 * digitVal a + digitVal b, rest)
      else none
  | _ => none

/-- `(\.\d{1,6})?` — greedy: fraction present with the longest digit run
(up to six) first, then absent. -/
def fracOpts (cs : List Char) : List (List Char) :=
  match cs with
  | '.' :: rest =>
      let k := min 6 (rest.takeWhile isDigitCh).length
      ((List.range k).map (fun i => rest.drop (k - i))) ++ ['.' :: rest]
  | _ => [cs]

/-- `(:?[0-5]\d(\.\d{1,6})?)?` — the optional seconds part of a `%z`
offset, greedy (present first, then absent with value 0). -/
def secOpts (cs : List Char) : List (Nat × List Char) :=
  ((colonOpt cs).flatMap (fun cs1 =>
     match lowSixty cs1 with
     | some sv => (fracOpts sv.2).map (fun cs3 => (sv.1, cs3))
     | none => [])) ++ [(0, cs)]

/-- `%z`: `([+-]\d\d:?[0-5]\d(:?[0-5]\d(\.\d{1,6})?)?|(?-i:Z))`; the value
is the signed offset in seconds (`Z` is case-sensitive and means +00:00). -/
def altsZoff (cs : List Char) : List (Int × List Char) :=
  (match cs with
   | sgn :: h1 :: h2 :: rest =>
     if (sgn = '+' || sgn = '-') && isDigitCh h1 && isDigitCh h2 then
       (colonOpt rest).flatMap (fun cs1 =>
         match lowSixty cs1 with
         | some mv =>
           (secOpts mv.2).map (fun sv =>
             (((if sgn = '-' then -1 else 1) : Int) *
               ((10 * digitVal h1 + digitVal h2) * 3600 + mv.1 * 60 + sv.1 : Nat), sv.2))
         | none => [])
     else []
   | _ => []) ++
  (match cs with
   | 'Z' :: rest => [(0, rest)]
   | _ => [])

/-- The tokens a format string compiles to. -/
inductive Tok where
  | lit (c : Char)
  | ws
  | tm | td | tY | tH | tMin | tS
  | tB | tb | ta | tZ | tz
  deriving Repr

/-- The ways a single token can match a prefix of the input, with the
capture update it performs, in regex alternation order. -/
def tokAlts : Tok → List Char → List ((Caps → Caps) × List Char)
  | .lit l, c :: rest => if lowerEq l c then [(id, rest)] else []
  | .lit _, [] => []
  | .ws, cs => (altsWs cs).map (fun rest => (id, rest))
  | .tm, cs => (altsM cs).map (fun p => (fun k => { k with mo := some p.1 }, p.2))
  | .td, cs => (altsD cs).map (fun p => (fun k => { k with dy := some p.1 }, p.2))
  | .tY, cs => (altsY cs).map (fun p => (fun k => { k with y := some p.1 }, p.2))
  | .tH, cs => (altsH cs).map (fun p => (fun k => { k with hh := some p.1 }, p.2))
  | .tMin, cs => (altsMin cs).map (fun p => (fun k => { k with mi := some p.1 }, p.2))
  | .tS, cs => (altsS cs).map (fun p => (fun k => { k with ss := some p.1 }, p.2))
  | .tB, cs => (nameAlts fullMonths cs).map (fun p => (fun k => { k with mo := some p.1 }, p.2))
  | .tb, cs => (nameAlts abbrMonths cs).map (fun p => (fun k => { k with mo := some p.1 }, p.2))
  | .ta, cs => (nameAlts weekdayNames cs).map (fun p => (id, p.2))
  | .tZ, cs => (nameAlts tzNames cs).map (fun p => (id, p.2))
  | .tz, cs => (altsZoff cs).map (fun p => (fun k => { k with zoff := some p.1 }, p.2))

/-- Depth-first matching of a token sequence against the input: returns the
first complete match (captures plus unconsumed suffix), exactly as the
backtracking regex engine does. -/
def reMatch (toks : List Tok) (caps : Caps) (cs : List Char) :
    Option (Caps × List Char) :=
  match toks with
  | [] => some (caps, cs)
  | t :: ts => (tokAlts t cs).findSome? fun p => reMatch ts (p.1 caps) p.2

/-- Gregorian leap year (`datetime`'s calendar). -/
def isLeap (y : Nat) : Bool := y % 4 = 0 && (y % 100 ≠ 0 || y % 400 = 0)

def daysInMonth (y m : Nat) : Nat :=
  if m = 2 then (if isLeap y then 29 else 28)
  else if m = 4 || m = 6 || m = 9 || m = 11 then 30 else 31

/-- Validation and construction performed by `datetime(...)` (and the
`timezone(timedelta(...))` bound) on the captured fields; defaults are
`_strptime`'s (year 1900, month 1, day 1, midnight).  Returns the date
triple `(year, month, day)`, the only part `strftime("%Y-%m-%d")` uses. -/
def buildDate (caps : Caps) : Option (Nat × Nat × Nat) :=
  let y := caps.y.getD 1900
  let m := caps.mo.getD 1
  let d := caps.dy.getD 1
  let zok := match caps.zoff with
    | none => true
    | some z => decide (-86400 < z) && decide (z < 86400)
  if 1 ≤ y && y ≤ 9999 && 1 ≤ m && m ≤ 12 && 1 ≤ d && d ≤ daysInMonth y m &&
     caps.hh.getD 0 ≤ 23 && caps.mi.getD 0 ≤ 59 && caps.ss.getD 0 ≤ 59 && zok
  then some (y, m, d) else none

/-- `datetime.strptime(s, fmt)`, reduced to the date triple: first
backtracking match, full-consumption check, `datetime` validation. -/
def strptimeF (toks : List Tok) (cs : List Char) : Option (Nat × Nat × Nat) :=
  match reMatch toks {} cs with
  | some (caps, []) => buildDate caps
  | _ => none

/-! ## The format list of `parseAndFormatDate` (source lines 31–43) -/

def fmtMDYslash : List Tok := [.tm, .lit '/', .td, .lit '/', .tY]
def fmtMDYdash : List Tok := [.tm, .lit '-', .td, .lit '-', .tY]
def fmtISO : List Tok := [.tY, .lit '-', .tm, .lit '-', .td]
def fmtDMYslash : List Tok := [.td, .lit '/', .tm, .lit '/', .tY]
def fmtDMYdash : List Tok := [.td, .lit '-', .tm, .lit '-', .tY]
def fmtBdY : List Tok := [.tB, .ws, .td, .lit ',', .ws, .tY]
def fmtbdY : List Tok := [.tb, .ws, .td, .lit ',', .ws, .tY]
def fmtRfcZname : List Tok :=
  [.ta, .lit ',', .ws, .td, .ws, .tb, .ws, .tY, .ws, .tH, .lit ':', .tMin, .lit ':', .tS, .ws, .tZ]
def fmtRfcZoff : List Tok :=
  [.ta, .lit ',', .ws, .td, .ws, .tb, .ws, .tY, .ws, .tH, .lit ':', .tMin, .lit ':', .tS, .ws, .tz]
def fmtIsoTZoff : List Tok :=
  [.tY, .lit '-', .tm, .lit '-', .td, .lit 'T', .tH, .lit ':', .tMin, .lit ':', .tS, .tz]
def fmtIsoTZlit : List Tok :=
  [.tY, .lit '-', .tm, .lit '-', .td, .lit 'T', .tH, .lit ':', .tMin, .lit ':', .tS, .lit 'Z']

/-- `lDateFormats` from the source, in trial order. -/
def lDateFormats : List (List Tok) :=
  [fmtMDYslash, fmtMDYdash, fmtISO, fmtDMYslash, fmtDMYdash,
   fmtBdY, fmtbdY, fmtRfcZname, fmtRfcZoff, fmtIsoTZoff, fmtIsoTZlit]

/-- `parseAndFormatDate` (source lines 23–50): strip, empty returns empty,
try each format in order and return the first success reformatted as
`YYYY-MM-DD`, otherwise return the stripped string. -/
def parseAndFormatDate (sDate : String) : String :=
  let t := stripChars sDate.data
  if t = [] then "" else
    match lDateFormats.findSome? (fun f => strptimeF f t) with
    | some ymd => fmtDate ymd.1 ymd.2.1 ymd.2.2
    | none => ⟨t⟩

/-! ## The `updated` field resolution (`spiderCustom.parse`, lines 174–196)

The HTTP header parse (`email.utils.parsedate_to_datetime` plus the UTF-8
decode of the header bytes) is a Python-stdlib collaborator outside this
repository; it is passed in as an oracle `rfc2822` returning the parsed
date triple, with `none` covering every exception path of the `try` block. -/

/-- The date signals of one fetched page: the `Last-Modified` header (if
present) and the four meta-tag contents, each `""` when the XPath query
returns nothing (`.get() or ""`). -/
structure PageDateSignals where
  lastModifiedHeader : Option String := none
  metaLastModified : String := ""
  metaArticleModifiedTime : String := ""
  metaLastModified2 : String := ""
  metaModified : String := ""

/-- Lines 174–180: the header attempt; empty string when the header is
absent or fails to parse. -/
def headerUpdated (rfc2822 : String → Option (Nat × Nat × Nat))
    (pg : PageDateSignals) : String :=
  match pg.lastModifiedHeader with
  | some hv =>
      match rfc2822 hv with
      | some ymd => fmtDate ymd.1 ymd.2.1 ymd.2.2
      | none => ""
  | none => ""

/-- Lines 174–196: resolution of the `updated` field, translating the
nested `if not sUpdatedDate` chain over the four meta tags. -/
def resolveUpdated (rfc2822 : String → Option (Nat × Nat × Nat))
    (pg : PageDateSignals) : String :=
  let s0 := headerUpdated rfc2822 pg
  if s0 = "" then
    let s1 := if pg.metaLastModified ≠ "" then parseAndFormatDate pg.metaLastModified else s0
    let s2 :=
      if s1 = "" then
        (if pg.metaArticleModifiedTime ≠ "" then parseAndFormatDate pg.metaArticleModifiedTime
         else s1)
      else s1
    let s3 :=
      if s2 = "" then
        (if pg.metaLastModified2 ≠ "" then parseAndFormatDate pg.metaLastModified2 else s2)
      else s2
    if s3 = "" then
      (if pg.metaModified ≠ "" then parseAndFormatDate pg.metaModified else s3)
    else s3
  else s0

/-- First non-empty string of a list (`""` if none). -/
def firstNonempty : List String → String
  | [] => ""
  | s :: rest => if s ≠ "" then s else firstNonempty rest

/-- Candidate list of the amended specification of the `updated`
resolution: the header result followed by the four normalized meta
candidates, in source order, where an absent (empty) meta contributes
nothing. -/
def specUpdatedChain (rfc2822 : String → Option (Nat × Nat × Nat))
    (pg : PageDateSignals) : String :=
  firstNonempty
    [headerUpdated rfc2822 pg,
     (if pg.metaLastModified = "" then "" else parseAndFormatDate pg.metaLastModified),
     (if pg.metaArticleModifiedTime = "" then ""
      else parseAndFormatDate pg.metaArticleModifiedTime),
     (if pg.metaLastModified2 = "" then "" else parseAndFormatDate pg.metaLastModified2),
     (if pg.metaModified = "" then "" else parseAndFormatDate pg.metaModified)]

/-! ## Crawl configuration and the frontier model

`spiderCustom.__init__` / `startRequests` / `parse` (lines 115–217).
The configuration record carries the keys `__init__` reads, with the
source's defaults.  A crawl run is modelled as repeated application of a
step function that pops one pending request and executes `parse` on it:

* `fetch` is the Document Fetcher oracle: `none` means the request never
  reaches `parse` (network failure, non-2xx response);
* `sched` models Scrapy's scheduler admission of a yielded request (the
  `DEPTH_LIMIT` middleware, offsite filtering, the duplicate filter).
  Per the source, `parse` adds a URL to `lUrlSet` *before* yielding the
  request, so a request dropped by `sched` still occupies the visited set;
* each `parse` call appends exactly one item (`dItem`, line 205) to
  `lItems`; the item is represented by its `url` field, the only field the
  counting claims depend on;
* the pending queue is kept in FIFO order; the counting and containment
  claims proved below do not depend on the scheduler's dequeue order. -/

structure CrawlConfig where
  startUrl : String := ""
  urlList : String := ""
  maxUrls : Nat := 30
  crawlDepth : Nat := 3
  parentDir : String := ""
  log : Bool := false

/-- Python `set()` materialised as a list keeping first occurrences
(iteration order of a CPython set is unspecified; all claims proved here
are order-insensitive). -/
def dedupKeepFirst (seen : List String) : List String → List String
  | [] => []
  | x :: xs => if x ∈ seen then dedupKeepFirst seen xs else x :: dedupKeepFirst (x :: seen) xs

/-- Line 133: `bool(dConfigData.get("urlList", "").strip())`. -/
def bUrlListMode (cfg : CrawlConfig) : Bool := pyStrip cfg.urlList ≠ ""

/-- Split at newline characters (Python `str.splitlines()` for
newline-separated text; a trailing empty piece, which `splitlines` does
not produce, is discarded by the blank-line filter below anyway, and
carriage returns are removed by the per-line `strip`). -/
def splitNL : List Char → List (List Char)
  | [] => [[]]
  | c :: cs =>
    match splitNL cs with
    | [] => [[]]
    | r :: rs => if c = '\n' then [] :: r :: rs else (c :: r) :: rs

/-- Line 135: strip each line of `urlList`, drop blanks, deduplicate. -/
def lUrlList (cfg : CrawlConfig) : List String :=
  dedupKeepFirst []
    (((splitNL cfg.urlList.data).map (fun l => (⟨stripChars l⟩ : String))).filter (· ≠ ""))

/-- `urllib.parse.urlparse(url).netloc` for the absolute
`scheme://host/path` URLs this crawler handles: the part between the first
`"://"` and the next `/`, `?` or `#` (empty when the URL has no
scheme-with-authority). -/
def findAuthority : List Char → Option (List Char)
  | [] => none
  | ':' :: '/' :: '/' :: rest => some rest
  | _ :: rest => findAuthority rest

def netlocEnd (c : Char) : Bool := c = '/' || c = '?' || c = '#'

def urlNetloc (s : String) : String :=
  match findAuthority s.data with
  | some rest => ⟨rest.takeWhile (fun c => !netlocEnd c)⟩
  | none => ""

/-- `urllib.parse.urlparse(url).path` for the same URL shapes: what
follows the authority, up to `?` or `#`. -/
def urlPath (s : String) : String :=
  match findAuthority s.data with
  | some rest => ⟨(rest.dropWhile (fun c => !netlocEnd c)).takeWhile (fun c => c ≠ '?' && c ≠ '#')⟩
  | none => ⟨s.data.takeWhile (fun c => c ≠ '?' && c ≠ '#')⟩

/-- Lines 138–141: domain of the start URL with a leading `www.` removed. -/
def allowedDomain (cfg : CrawlConfig) : String :=
  let d := urlNetloc cfg.startUrl
  if d.startsWith "www." then ⟨d.data.drop 4⟩ else d

/-- The mode-dependent outcome of `__init__` plus `startRequests`: which
mode was selected, the requests `startRequests` yields (in order), and the
`allowed_domains` attribute (`none` when the attribute is never set, as in
List Mode). -/
structure SpiderInit where
  bUrlListMode : Bool
  seeds : List String
  allowedDomains : Option (List String)

def spiderInit (cfg : CrawlConfig) : SpiderInit :=
  if bUrlListMode cfg then
    { bUrlListMode := true, seeds := lUrlList cfg, allowedDomains := none }
  else
    { bUrlListMode := false, seeds := [cfg.startUrl],
      allowedDomains := some [allowedDomain cfg] }

/-- A fetched document, as `parse` sees it: its title and the
`urljoin`-resolved href values of its anchors, in document order. -/
structure Page where
  title : String := ""
  links : List String := []

/-- The spider state: `lUrlSet` (insertion-ordered list model of the
Python set), the scheduler's pending requests with their depths, and the
accumulated `lItems` (one entry per processed page, by URL). -/
structure CrawlState where
  lUrlSet : List String
  pending : List (String × Nat)
  lItems : List String

/-- The state after `startRequests` has run (lines 145–155): in List Mode
every deduplicated URL is added to `lUrlSet` and yielded; in Crawl Mode
the start URL is added and yielded at depth 0. -/
def initState (cfg : CrawlConfig) : CrawlState :=
  if bUrlListMode cfg then
    { lUrlSet := lUrlList cfg, pending := (lUrlList cfg).map (fun u => (u, 0)), lItems := [] }
  else
    { lUrlSet := [cfg.startUrl], pending := [(cfg.startUrl, 0)], lItems := [] }

/-- Lines 209–215: the per-link loop of `parse`.  For each discovered link:
skip when `parentDir` is set and the link's path does not start with it;
skip when already in `lUrlSet`; otherwise add to `lUrlSet` and yield a
request at depth `dep + 1` (kept only when the scheduler accepts it). -/
def enqueueLinks (cfg : CrawlConfig) (sched : String → Nat → Bool) (dep : Nat) :
    List String → List String → List String × List (String × Nat)
  | vis, [] => (vis, [])
  | vis, u :: us =>
      if cfg.parentDir ≠ "" && !(urlPath u).startsWith cfg.parentDir then
        enqueueLinks cfg sched dep vis us
      else if u ∈ vis then
        enqueueLinks cfg sched dep vis us
      else
        let res := enqueueLinks cfg sched dep (vis ++ [u]) us
        (res.1, (if sched u (dep + 1) then [(u, dep + 1)] else []) ++ res.2)

/-- One scheduler round: pop the next pending request; if the fetch fails
the page is skipped, otherwise `parse` runs (lines 157–217): one item is
appended, and in Crawl Mode, when `len(lUrlSet) < maxUrls`, the page's
deduplicated links are offered to `enqueueLinks` (otherwise nothing is
enqueued and the cap is reported). -/
def crawlStep (cfg : CrawlConfig) (fetch : String → Option Page)
    (sched : String → Nat → Bool) (st : CrawlState) : CrawlState :=
  match st.pending with
  | [] => st
  | (u, dep) :: rest =>
    match fetch u with
    | none => { st with pending := rest }
    | some page =>
      let items := st.lItems ++ [u]
      if bUrlListMode cfg then
        { lUrlSet := st.lUrlSet, pending := rest, lItems := items }
      else if st.lUrlSet.length < cfg.maxUrls then
        let eq := enqueueLinks cfg sched dep st.lUrlSet (dedupKeepFirst [] page.links)
        { lUrlSet := eq.1, pending := rest ++ eq.2, lItems := items }
      else
        { lUrlSet := st.lUrlSet, pending := rest, lItems := items }

/-- Run the crawl for a given number of scheduler rounds. -/
def crawlRun (cfg : CrawlConfig) (fetch : String → Option Page)
    (sched : String → Nat → Bool) : Nat → CrawlState → CrawlState
  | 0, st => st
  | fuel + 1, st => crawlRun cfg fetch sched fuel (crawlStep cfg fetch sched st)

/-! ## The shutdown sequence (`spiderCustom.closed`, lines 219–245) and
the module-level logging state (lines 20–21) -/

/-- Line 21: `MEM_LOG_HANDLER = None`.  No statement anywhere in the
program ever assigns it again (the `memoryLogHandler` class is defined at
lines 52–59 but never instantiated, and `main` installs no handler), so
the global holds `None` for the whole run. -/
def MEM_LOG_HANDLER : Option Unit := none

/-- Which externally visible effects `closed` produces after the output
file name has been chosen. -/
structure ShutdownEffects where
  csvErrorLogged : Bool
  logAttempted : Bool
  logErrorLogged : Bool
  summaryPrinted : Bool
  deriving Repr, DecidableEq

/-- Lines 228–245 of `closed`, as a function of whether the CSV write
raises, whether config logging is on, whether the handler global is set,
and whether the log write raises.  Note the `return` at line 236: a CSV
write failure ends `closed` immediately. -/
def closedEffects (logCfg : Bool) (handlerPresent : Bool) (csvOk : Bool)
    (logOk : Bool) : ShutdownEffects :=
  if !csvOk then
    { csvErrorLogged := true, logAttempted := false, logErrorLogged := false,
      summaryPrinted := false }
  else if logCfg && handlerPresent then
    if logOk then
      { csvErrorLogged := false, logAttempted := true, logErrorLogged := false,
        summaryPrinted := true }
    else
      { csvErrorLogged := false, logAttempted := true, logErrorLogged := true,
        summaryPrinted := true }
  else
    { csvErrorLogged := false, logAttempted := false, logErrorLogged := false,
      summaryPrinted := true }

/-- `closed` as it actually runs in this program: the handler argument is
the module global `MEM_LOG_HANDLER`. -/
def closedRun (logCfg : Bool) (csvOk : Bool) (logOk : Bool) : ShutdownEffects :=
  closedEffects logCfg MEM_LOG_HANDLER.isSome csvOk logOk

/-! ## Output file naming (`closed`, lines 219–227) -/

/-- The characters stripped by `re.sub(r'[\\\/:*?"<>|]', "", ...)`. -/
def badNameChar (c : Char) : Bool :=
  c = '\\' || c = '/' || c = ':' || c = '*' || c = '?' || c = '\"' || c = '<' ||
  c = '>' || c = '|'

/-- Line 221: strip the filesystem-unsafe characters. -/
def sanitizeName (s : String) : String := ⟨s.data.filter (fun c => !badNameChar c)⟩

/-- Line 220: the stripped start title, or `"output"` when blank. -/
def deriveRoot (startTitle : String) : String :=
  if pyStrip startTitle ≠ "" then pyStrip startTitle else "output"

def pad2S (n : Nat) : String := ⟨pad2 n⟩

/-- Lines 224–227: the collision loop.  `existing` is the set of file
names `os.path.exists` answers true for; the fuel `existing.length + 1`
covers every iteration the loop can make before leaving `existing`. -/
def pickCsvLoop (root : String) (existing : List String) :
    Nat → String → Nat → String
  | 0, cur, _ => cur
  | fuel + 1, cur, suffix =>
      if cur ∈ existing then
        pickCsvLoop root existing fuel (root ++ "-" ++ pad2S suffix ++ ".csv") (suffix + 1)
      else cur

def pickCsvFile (root : String) (existing : List String) : String :=
  pickCsvLoop root existing (existing.length + 1) (root ++ ".csv") 1

/-- Lines 219–227 composed: the CSV file name `closed` writes to. -/
def closedCsvFileName (startTitle : String) (existing : List String) : String :=
  pickCsvFile (sanitizeName (deriveRoot startTitle)) existing

/-- Lines 127 and 163–164: `sStartTitle` starts as `""` and each processed
page runs `if not self.sStartTitle: self.sStartTitle = sTitle`, so the
value is (re)assigned only while it is still empty (Python falsiness of
the empty string). -/
def startTitleStep (acc title : String) : String :=
  if acc = "" then title else acc

/-- The `sStartTitle` value at crawl end, given the titles of the
processed pages in processing order (each one is
`response.xpath("//title/text()").get() or ""`, line 159). -/
def startTitleOf (titles : List String) : String :=
  titles.foldl startTitleStep ""

/-- The original claim's reading of the derivation, stated from its words
for comparison with `startTitleOf`: the base name comes from the FIRST
processed page's title, the fallback applying when that title is blank. -/
def claimFirstTitle (titles : List String) : String := titles.headI

/-! ## Helper lemmas: deduplication, list-mode runs -/

theorem mem_dedupKeepFirst (u : String) :
    ∀ (l seen : List String), u ∈ dedupKeepFirst seen l ↔ u ∈ l ∧ u ∉ seen := by
  intro l
  induction l with
  | nil => intro seen; simp [dedupKeepFirst]
  | cons x xs ih =>
      intro seen
      by_cases hx : x ∈ seen
      · rw [dedupKeepFirst, if_pos hx, ih]
        constructor
        · exact fun hu => ⟨List.mem_cons_of_mem x hu.1, hu.2⟩
        · rintro ⟨hu, hs⟩
          rcases List.mem_cons.mp hu with rfl | hu2
          · exact absurd hx hs
          · exact ⟨hu2, hs⟩
      · rw [dedupKeepFirst, if_neg hx]
        simp only [List.mem_cons, ih]
        constructor
        · rintro (rfl | ⟨hu, hns⟩)
          · exact ⟨Or.inl rfl, hx⟩
          · exact ⟨Or.inr hu, fun hs => hns (Or.inr hs)⟩
        · rintro ⟨rfl | hu, hs⟩
          · exact Or.inl rfl
          · by_cases hux : u = x
            · exact Or.inl hux
            · exact Or.inr ⟨hu, by simp [List.mem_cons, hux, hs]⟩

theorem nodup_dedupKeepFirst :
    ∀ (l seen : List String), (dedupKeepFirst seen l).Nodup := by
  intro l
  induction l with
  | nil => intro seen; simp [dedupKeepFirst]
  | cons x xs ih =>
      intro seen
      by_cases hx : x ∈ seen
      · rw [dedupKeepFirst, if_pos hx]; exact ih seen
      · rw [dedupKeepFirst, if_neg hx]
        refine List.nodup_cons.mpr ⟨fun hmem => ?_, ih (x :: seen)⟩
        exact ((mem_dedupKeepFirst x xs (x :: seen)).mp hmem).2 (List.mem_cons_self x seen)

/-- In List Mode a run never enqueues anything: with enough scheduler
rounds it consumes the whole pending queue, leaves the visited set
untouched, and appends exactly the successfully fetched pending URLs. -/
theorem listMode_run (cfg : CrawlConfig) (hmode : bUrlListMode cfg = true)
    (fetch : String → Option Page) (sched : String → Nat → Bool) :
    ∀ (fuel : Nat) (pend : List (String × Nat)) (vis its : List String),
      pend.length ≤ fuel →
      crawlRun cfg fetch sched fuel ⟨vis, pend, its⟩ =
        ⟨vis, [], its ++ (pend.map Prod.fst).filter (fun u => (fetch u).isSome)⟩ := by
  intro fuel
  induction fuel with
  | zero =>
      intro pend vis its hle
      have hp : pend = [] := List.eq_nil_of_length_eq_zero (Nat.le_zero.mp hle)
      subst hp
      simp [crawlRun]
  | succ n ih =>
      intro pend vis its hle
      match pend with
      | [] => simpa [crawlRun, crawlStep] using ih [] vis its (by simp)
      | (u, dep) :: rest =>
          have hrest : rest.length ≤ n := by simpa using hle
          cases hf : fetch u with
          | none =>
              rw [crawlRun, crawlStep]
              simp only [hf]
              rw [ih rest vis its hrest]
              simp [hf]
          | some page =>
              rw [crawlRun, crawlStep]
              simp only [hf, hmode, if_true]
              rw [ih rest vis (its ++ [u]) hrest]
              simp [hf]

/-- In List Mode every pending URL and every recorded item stays inside
the deduplicated seed list, at any number of scheduler rounds. -/
theorem listMode_run_subset (cfg : CrawlConfig) (hmode : bUrlListMode cfg = true)
    (fetch : String → Option Page) (sched : String → Nat → Bool) :
    ∀ (fuel : Nat) (st : CrawlState),
      (∀ p ∈ st.pending, p.1 ∈ lUrlList cfg) → (∀ u ∈ st.lItems, u ∈ lUrlList cfg) →
      (∀ p ∈ (crawlRun cfg fetch sched fuel st).pending, p.1 ∈ lUrlList cfg) ∧
      (∀ u ∈ (crawlRun cfg fetch sched fuel st).lItems, u ∈ lUrlList cfg) := by
  intro fuel
  induction fuel with
  | zero => intro st hp hi; exact ⟨hp, hi⟩
  | succ n ih =>
      intro st hp hi
      rw [crawlRun]
      match hst : st.pending with
      | [] =>
          refine ih _ ?_ ?_
          · intro p hp2
            simp [crawlStep, hst] at hp2
          · intro u hu
            exact hi u (by simpa [crawlStep, hst] using hu)
      | (u, dep) :: rest =>
          have hu : u ∈ lUrlList cfg := hp (u, dep) (by rw [hst]; exact List.mem_cons_self _ _)
          have hrest : ∀ p ∈ rest, p.1 ∈ lUrlList cfg :=
            fun p hpr => hp p (by rw [hst]; exact List.mem_cons_of_mem _ hpr)
          cases hf : fetch u with
          | none =>
              refine ih _ ?_ ?_
              · intro p hp2
                exact hrest p (by simpa [crawlStep, hst, hf] using hp2)
              · intro v hv
                exact hi v (by simpa [crawlStep, hst, hf] using hv)
          | some page =>
              refine ih _ ?_ ?_
              · intro p hp2
                exact hrest p (by simpa [crawlStep, hst, hf, hmode] using hp2)
              · intro v hv
                have hv2 : v ∈ st.lItems ++ [u] := by
                  simpa [crawlStep, hst, hf, hmode] using hv
                rcases List.mem_append.mp hv2 with hv3 | hv4
                · exact hi v hv3
                · rw [List.mem_singleton.mp hv4]; exact hu

/-! ## Digit-character facts

These rewrite the character-class tests of the matching engine into
arithmetic on the digit values, enabling symbolic evaluation of the
matcher on strings built by `fmtDateChars`. -/

theorem digitChar_ge (v : Nat) (h : 10 ≤ v) : digitChar v = '*' := by
  match v, h with
  | n + 10, _ => rfl

theorem dcEq0 (v : Nat) : decide (digitChar v = '0') = decide (v = 0) := by
  by_cases h : v < 10
  · interval_cases v <;> decide
  · rw [digitChar_ge v (by omega)]
    have h3 : v ≠ 0 := by omega
    simp [h3]

theorem dcEq1 (v : Nat) : decide (digitChar v = '1') = decide (v = 1) := by
  by_cases h : v < 10
  · interval_cases v <;> decide
  · rw [digitChar_ge v (by omega)]
    have h3 : v ≠ 1 := by omega
    simp [h3]

theorem dcEq2 (v : Nat) : decide (digitChar v = '2') = decide (v = 2) := by
  by_cases h : v < 10
  · interval_cases v <;> decide
  · rw [digitChar_ge v (by omega)]
    have h3 : v ≠ 2 := by omega
    simp [h3]

theorem dcEq3 (v : Nat) : decide (digitChar v = '3') = decide (v = 3) := by
  by_cases h : v < 10
  · interval_cases v <;> decide
  · rw [digitChar_ge v (by omega)]
    have h3 : v ≠ 3 := by omega
    simp [h3]

theorem dcEq6 (v : Nat) : decide (digitChar v = '6') = decide (v = 6) := by
  by_cases h : v < 10
  · interval_cases v <;> decide
  · rw [digitChar_ge v (by omega)]
    have h3 : v ≠ 6 := by omega
    simp [h3]

theorem dcEqSpace (v : Nat) : decide (digitChar v = ' ') = false := by
  by_cases h : v < 10
  · interval_cases v <;> decide
  · rw [digitChar_ge v (by omega)]; decide

theorem chB02 (v : Nat) : chBetween '0' '2' (digitChar v) = decide (v ≤ 2) := by
  by_cases h : v < 10
  · interval_cases v <;> decide
  · rw [digitChar_ge v (by omega)]
    have h3 : ¬(v ≤ 2) := by omega
    simp [h3]; decide

theorem chB01 (v : Nat) : chBetween '0' '1' (digitChar v) = decide (v ≤ 1) := by
  by_cases h : v < 10
  · interval_cases v <;> decide
  · rw [digitChar_ge v (by omega)]
    have h3 : ¬(v ≤ 1) := by omega
    simp [h3]; decide

theorem chB03 (v : Nat) : chBetween '0' '3' (digitChar v) = decide (v ≤ 3) := by
  by_cases h : v < 10
  · interval_cases v <;> decide
  · rw [digitChar_ge v (by omega)]
    have h3 : ¬(v ≤ 3) := by omega
    simp [h3]; decide

theorem chB05 (v : Nat) : chBetween '0' '5' (digitChar v) = decide (v ≤ 5) := by
  by_cases h : v < 10
  · interval_cases v <;> decide
  · rw [digitChar_ge v (by omega)]
    have h3 : ¬(v ≤ 5) := by omega
    simp [h3]; decide

theorem chB19 (v : Nat) :
    chBetween '1' '9' (digitChar v) = decide (1 ≤ v ∧ v ≤ 9) := by
  by_cases h : v < 10
  · interval_cases v <;> decide
  · rw [digitChar_ge v (by omega)]
    have h3 : ¬(1 ≤ v ∧ v ≤ 9) := by omega
    simp [h3]; decide

theorem chB12 (v : Nat) :
    chBetween '1' '2' (digitChar v) = decide (1 ≤ v ∧ v ≤ 2) := by
  by_cases h : v < 10
  · interval_cases v <;> decide
  · rw [digitChar_ge v (by omega)]
    have h3 : ¬(1 ≤ v ∧ v ≤ 2) := by omega
    simp [h3]; decide

theorem isDigitCh_dc (v : Nat) : isDigitCh (digitChar v) = decide (v < 10) := by
  by_cases h : v < 10
  · interval_cases v <;> decide
  · rw [digitChar_ge v (by omega)]
    have h3 : ¬(v < 10) := by omega
    simp [h3]; decide

theorem digitVal_dc (v : Nat) (h : v < 10) : digitVal (digitChar v) = v := by
  interval_cases v <;> decide

theorem lowerEq_dash_dc (v : Nat) : lowerEq '-' (digitChar v) = false := by
  by_cases h : v < 10
  · interval_cases v <;> decide
  · rw [digitChar_ge v (by omega)]; decide

theorem lowerEq_slash_dc (v : Nat) : lowerEq '/' (digitChar v) = false := by
  by_cases h : v < 10
  · interval_cases v <;> decide
  · rw [digitChar_ge v (by omega)]; decide

theorem lowerEq_tee_dc (v : Nat) : lowerEq 'T' (digitChar v) = false := by
  by_cases h : v < 10
  · interval_cases v <;> decide
  · rw [digitChar_ge v (by omega)]; decide

theorem pyWs_dc (v : Nat) : pyWs (digitChar v) = false := by
  by_cases h : v < 10
  · interval_cases v <;> decide
  · rw [digitChar_ge v (by omega)]; decide

theorem lowerEq_letter_dc (l : Char)
    (hl : l ∈ ['s', 'f', 'n', 'd', 'j', 'o', 'a', 'm', 't', 'w']) (v : Nat) :
    lowerEq l (digitChar v) = false := by
  by_cases h : v < 10
  · fin_cases hl <;> interval_cases v <;> decide
  · rw [digitChar_ge v (by omega)]
    fin_cases hl <;> decide

theorem isDigitCh_dash : isDigitCh '-' = false := by decide

/-! ## Matcher evaluation toolkit

Small stepping lemmas for evaluating `reMatch` on semi-symbolic inputs
(digit characters with unknown values). -/

theorem reMatch_cons_eq (t : Tok) (ts : List Tok) (caps : Caps) (cs : List Char) :
    reMatch (t :: ts) caps cs
      = (tokAlts t cs).findSome? (fun p => reMatch ts (p.1 caps) p.2) := rfl

theorem reMatch_none_of_alts_nil (t : Tok) (ts : List Tok) (caps : Caps)
    (cs : List Char) (h : tokAlts t cs = []) : reMatch (t :: ts) caps cs = none := by
  rw [reMatch_cons_eq, h]; rfl

theorem reMatch_lit_fail (l c : Char) (h : lowerEq l c = false) (ts : List Tok)
    (caps : Caps) (cs : List Char) :
    reMatch (.lit l :: ts) caps (c :: cs) = none := by
  apply reMatch_none_of_alts_nil; simp [tokAlts, h]

theorem reMatch_lit_nil (l : Char) (ts : List Tok) (caps : Caps) :
    reMatch (.lit l :: ts) caps [] = none := by
  apply reMatch_none_of_alts_nil; simp [tokAlts]

theorem reMatch_lit_ok (l c : Char) (h : lowerEq l c = true) (ts : List Tok)
    (caps : Caps) (cs : List Char) :
    reMatch (.lit l :: ts) caps (c :: cs) = reMatch ts caps cs := by
  rw [reMatch_cons_eq]
  simp only [tokAlts, h, if_true, List.findSome?, id_eq]
  cases reMatch ts caps cs <;> rfl

theorem reMatch_tY_end2 (caps : Caps) (x1 x2 : Char) :
    reMatch [.tY] caps [x1, x2] = none := by
  apply reMatch_none_of_alts_nil; simp [tokAlts, altsY]

/-- The `%d-%Y` suffix of `%m-%d-%Y` cannot match `mm-dd` (two two-digit
groups): `%Y` needs four digits. -/
theorem tailFail_td (caps : Caps) (m1 m2 d1 d2 : Nat) :
    reMatch [.td, .lit '-', .tY] caps
      (digitChar m1 :: digitChar m2 :: '-' :: digitChar d1 :: digitChar d2 :: [])
      = none := by
  have hok : ∀ ts caps cs, reMatch (.lit '-' :: ts) caps ('-' :: cs) = reMatch ts caps cs :=
    fun ts caps cs => reMatch_lit_ok '-' '-' (by decide) ts caps cs
  have hfail : ∀ ts caps cs, reMatch (.lit '-' :: ts) caps (digitChar m2 :: cs) = none :=
    fun ts caps cs => reMatch_lit_fail '-' (digitChar m2) (lowerEq_dash_dc m2) ts caps cs
  rw [reMatch_cons_eq]
  simp only [tokAlts, altsD, List.map_append, List.findSome?_append, List.map_cons,
    List.map_nil]
  split_ifs <;> simp [List.findSome?, hok, hfail, reMatch_tY_end2]

/-- The `%m-%Y` suffix of `%d-%m-%Y`, likewise. -/
theorem tailFail_tm (caps : Caps) (m1 m2 d1 d2 : Nat) :
    reMatch [.tm, .lit '-', .tY] caps
      (digitChar m1 :: digitChar m2 :: '-' :: digitChar d1 :: digitChar d2 :: [])
      = none := by
  have hok : ∀ ts caps cs, reMatch (.lit '-' :: ts) caps ('-' :: cs) = reMatch ts caps cs :=
    fun ts caps cs => reMatch_lit_ok '-' '-' (by decide) ts caps cs
  have hfail : ∀ ts caps cs, reMatch (.lit '-' :: ts) caps (digitChar m2 :: cs) = none :=
    fun ts caps cs => reMatch_lit_fail '-' (digitChar m2) (lowerEq_dash_dc m2) ts caps cs
  rw [reMatch_cons_eq]
  simp only [tokAlts, altsM, List.map_append, List.findSome?_append, List.map_cons,
    List.map_nil]
  split_ifs <;> simp [List.findSome?, hok, hfail, reMatch_tY_end2]

/-! ## Failure of each format on re-parsed `YYYY-MM-DD` output shapes

`fmtDateChars y m d` produces `digits(y) ++ "-mm-dd"` with one to four
year digits.  The lemmas below show which formats fail on each shape (for
arbitrary digit values — only digit-ness matters). -/

/-- The `-mm-dd` tail common to every `fmtDateChars` output. -/
def dateTail (m1 m2 d1 d2 : Nat) : List Char :=
  '-' :: digitChar m1 :: digitChar m2 :: '-' :: digitChar d1 :: digitChar d2 :: []

theorem strptimeF_none (toks : List Tok) (cs : List Char)
    (h : reMatch toks {} cs = none) : strptimeF toks cs = none := by
  rw [strptimeF, h]

theorem altsY_dash2 (x1 : Char) (rest : List Char) : altsY (x1 :: '-' :: rest) = [] := by
  rcases rest with _ | ⟨c3, _ | ⟨c4, r⟩⟩ <;> simp [altsY, isDigitCh_dash]

theorem altsY_dash3 (x1 x2 : Char) (rest : List Char) :
    altsY (x1 :: x2 :: '-' :: rest) = [] := by
  rcases rest with _ | ⟨c4, r⟩ <;> simp [altsY, isDigitCh_dash]

theorem altsY_dash4 (x1 x2 x3 : Char) (rest : List Char) :
    altsY (x1 :: x2 :: x3 :: '-' :: rest) = [] := by
  simp [altsY, isDigitCh_dash]

/-- Formats beginning with `%Y` fail whenever a dash sits among the first
four characters. -/
theorem tY_head_fail (ts : List Tok) (cs : List Char) (h : altsY cs = []) :
    strptimeF (.tY :: ts) cs = none := by
  apply strptimeF_none
  apply reMatch_none_of_alts_nil
  simp [tokAlts, h]

theorem tokAlts_tB_dc (v : Nat) (rest : List Char) :
    tokAlts .tB (digitChar v :: rest) = [] := by
  have h := fun l hl => lowerEq_letter_dc l hl v
  simp [tokAlts, nameAlts, fullMonths, stripWordCI, h 's' (by decide),
    h 'f' (by decide), h 'n' (by decide), h 'd' (by decide), h 'j' (by decide),
    h 'o' (by decide), h 'a' (by decide), h 'm' (by decide)]

theorem tokAlts_tb_dc (v : Nat) (rest : List Char) :
    tokAlts .tb (digitChar v :: rest) = [] := by
  have h := fun l hl => lowerEq_letter_dc l hl v
  simp [tokAlts, nameAlts, abbrMonths, stripWordCI, h 's' (by decide),
    h 'f' (by decide), h 'n' (by decide), h 'd' (by decide), h 'j' (by decide),
    h 'o' (by decide), h 'a' (by decide), h 'm' (by decide)]

theorem tokAlts_ta_dc (v : Nat) (rest : List Char) :
    tokAlts .ta (digitChar v :: rest) = [] := by
  have h := fun l hl => lowerEq_letter_dc l hl v
  simp [tokAlts, nameAlts, weekdayNames, stripWordCI, h 's' (by decide),
    h 'f' (by decide), h 'm' (by decide), h 't' (by decide), h 'w' (by decide)]

/-- Formats beginning with a month or weekday name fail on a digit. -/
theorem name_head_fail (t : Tok) (ts : List Tok) (v : Nat) (rest : List Char)
    (h : tokAlts t (digitChar v :: rest) = []) :
    strptimeF (t :: ts) (digitChar v :: rest) = none := by
  apply strptimeF_none
  exact reMatch_none_of_alts_nil t ts {} _ h

theorem fmt1_fail_1 (a m1 m2 d1 d2 : Nat) :
    strptimeF fmtMDYslash (digitChar a :: dateTail m1 m2 d1 d2) = none := by
  apply strptimeF_none
  have hfd : ∀ ts caps cs, reMatch (.lit '/' :: ts) caps ('-' :: cs) = none :=
    fun ts caps cs => reMatch_lit_fail '/' '-' (by decide) ts caps cs
  have hfg : ∀ w ts caps cs, reMatch (.lit '/' :: ts) caps (digitChar w :: cs) = none :=
    fun w ts caps cs => reMatch_lit_fail '/' (digitChar w) (lowerEq_slash_dc w) ts caps cs
  rw [fmtMDYslash, reMatch_cons_eq]
  simp only [dateTail, tokAlts, altsM, List.map_append, List.findSome?_append,
    List.map_cons, List.map_nil]
  split_ifs <;> simp [List.findSome?, hfd, hfg]

theorem fmt1_fail_2 (a b m1 m2 d1 d2 : Nat) :
    strptimeF fmtMDYslash (digitChar a :: digitChar b :: dateTail m1 m2 d1 d2)
      = none := by
  apply strptimeF_none
  have hfd : ∀ ts caps cs, reMatch (.lit '/' :: ts) caps ('-' :: cs) = none :=
    fun ts caps cs => reMatch_lit_fail '/' '-' (by decide) ts caps cs
  have hfg : ∀ w ts caps cs, reMatch (.lit '/' :: ts) caps (digitChar w :: cs) = none :=
    fun w ts caps cs => reMatch_lit_fail '/' (digitChar w) (lowerEq_slash_dc w) ts caps cs
  rw [fmtMDYslash, reMatch_cons_eq]
  simp only [dateTail, tokAlts, altsM, List.map_append, List.findSome?_append,
    List.map_cons, List.map_nil]
  split_ifs <;> simp [List.findSome?, hfd, hfg]

theorem fmt1_fail_3 (a b c m1 m2 d1 d2 : Nat) :
    strptimeF fmtMDYslash
      (digitChar a :: digitChar b :: digitChar c :: dateTail m1 m2 d1 d2) = none := by
  apply strptimeF_none
  have hfg : ∀ w ts caps cs, reMatch (.lit '/' :: ts) caps (digitChar w :: cs) = none :=
    fun w ts caps cs => reMatch_lit_fail '/' (digitChar w) (lowerEq_slash_dc w) ts caps cs
  rw [fmtMDYslash, reMatch_cons_eq]
  simp only [dateTail, tokAlts, altsM, List.map_append, List.findSome?_append,
    List.map_cons, List.map_nil]
  split_ifs <;> simp [List.findSome?, hfg]

theorem fmt1_fail_4 (a b c e m1 m2 d1 d2 : Nat) :
    strptimeF fmtMDYslash
      (digitChar a :: digitChar b :: digitChar c :: digitChar e ::
        dateTail m1 m2 d1 d2) = none := by
  apply strptimeF_none
  have hfg : ∀ w ts caps cs, reMatch (.lit '/' :: ts) caps (digitChar w :: cs) = none :=
    fun w ts caps cs => reMatch_lit_fail '/' (digitChar w) (lowerEq_slash_dc w) ts caps cs
  rw [fmtMDYslash, reMatch_cons_eq]
  simp only [dateTail, tokAlts, altsM, List.map_append, List.findSome?_append,
    List.map_cons, List.map_nil]
  split_ifs <;> simp [List.findSome?, hfg]

theorem fmt4_fail_1 (a m1 m2 d1 d2 : Nat) :
    strptimeF fmtDMYslash (digitChar a :: dateTail m1 m2 d1 d2) = none := by
  apply strptimeF_none
  have hfd : ∀ ts caps cs, reMatch (.lit '/' :: ts) caps ('-' :: cs) = none :=
    fun ts caps cs => reMatch_lit_fail '/' '-' (by decide) ts caps cs
  have hfg : ∀ w ts caps cs, reMatch (.lit '/' :: ts) caps (digitChar w :: cs) = none :=
    fun w ts caps cs => reMatch_lit_fail '/' (digitChar w) (lowerEq_slash_dc w) ts caps cs
  rw [fmtDMYslash, reMatch_cons_eq]
  simp only [dateTail, tokAlts, altsD, List.map_append, List.findSome?_append,
    List.map_cons, List.map_nil]
  split_ifs <;> simp [List.findSome?, hfd, hfg]

theorem fmt4_fail_2 (a b m1 m2 d1 d2 : Nat) :
    strptimeF fmtDMYslash (digitChar a :: digitChar b :: dateTail m1 m2 d1 d2)
      = none := by
  apply strptimeF_none
  have hfd : ∀ ts caps cs, reMatch (.lit '/' :: ts) caps ('-' :: cs) = none :=
    fun ts caps cs => reMatch_lit_fail '/' '-' (by decide) ts caps cs
  have hfg : ∀ w ts caps cs, reMatch (.lit '/' :: ts) caps (digitChar w :: cs) = none :=
    fun w ts caps cs => reMatch_lit_fail '/' (digitChar w) (lowerEq_slash_dc w) ts caps cs
  rw [fmtDMYslash, reMatch_cons_eq]
  simp only [dateTail, tokAlts, altsD, List.map_append, List.findSome?_append,
    List.map_cons, List.map_nil]
  split_ifs <;> simp [List.findSome?, hfd, hfg]

theorem fmt4_fail_3 (a b c m1 m2 d1 d2 : Nat) :
    strptimeF fmtDMYslash
      (digitChar a :: digitChar b :: digitChar c :: dateTail m1 m2 d1 d2) = none := by
  apply strptimeF_none
  have hfg : ∀ w ts caps cs, reMatch (.lit '/' :: ts) caps (digitChar w :: cs) = none :=
    fun w ts caps cs => reMatch_lit_fail '/' (digitChar w) (lowerEq_slash_dc w) ts caps cs
  rw [fmtDMYslash, reMatch_cons_eq]
  simp only [dateTail, tokAlts, altsD, List.map_append, List.findSome?_append,
    List.map_cons, List.map_nil]
  split_ifs <;> simp [List.findSome?, hfg]

theorem fmt2_fail_1 (a m1 m2 d1 d2 : Nat) :
    strptimeF fmtMDYdash (digitChar a :: dateTail m1 m2 d1 d2) = none := by
  apply strptimeF_none
  have hok : ∀ ts caps cs, reMatch (.lit '-' :: ts) caps ('-' :: cs) = reMatch ts caps cs :=
    fun ts caps cs => reMatch_lit_ok '-' '-' (by decide) ts caps cs
  have hfg : ∀ w ts caps cs, reMatch (.lit '-' :: ts) caps (digitChar w :: cs) = none :=
    fun w ts caps cs => reMatch_lit_fail '-' (digitChar w) (lowerEq_dash_dc w) ts caps cs
  rw [fmtMDYdash, reMatch_cons_eq]
  simp only [dateTail, tokAlts, altsM, List.map_append, List.findSome?_append,
    List.map_cons, List.map_nil]
  split_ifs <;> simp [List.findSome?, hok, hfg, tailFail_td]

theorem fmt2_fail_2 (a b m1 m2 d1 d2 : Nat) :
    strptimeF fmtMDYdash (digitChar a :: digitChar b :: dateTail m1 m2 d1 d2)
      = none := by
  apply strptimeF_none
  have hok : ∀ ts caps cs, reMatch (.lit '-' :: ts) caps ('-' :: cs) = reMatch ts caps cs :=
    fun ts caps cs => reMatch_lit_ok '-' '-' (by decide) ts caps cs
  have hfg : ∀ w ts caps cs, reMatch (.lit '-' :: ts) caps (digitChar w :: cs) = none :=
    fun w ts caps cs => reMatch_lit_fail '-' (digitChar w) (lowerEq_dash_dc w) ts caps cs
  rw [fmtMDYdash, reMatch_cons_eq]
  simp only [dateTail, tokAlts, altsM, List.map_append, List.findSome?_append,
    List.map_cons, List.map_nil]
  split_ifs <;> simp [List.findSome?, hok, hfg, tailFail_td]

theorem fmt2_fail_3 (a b c m1 m2 d1 d2 : Nat) :
    strptimeF fmtMDYdash
      (digitChar a :: digitChar b :: digitChar c :: dateTail m1 m2 d1 d2) = none := by
  apply strptimeF_none
  have hfg : ∀ w ts caps cs, reMatch (.lit '-' :: ts) caps (digitChar w :: cs) = none :=
    fun w ts caps cs => reMatch_lit_fail '-' (digitChar w) (lowerEq_dash_dc w) ts caps cs
  rw [fmtMDYdash, reMatch_cons_eq]
  simp only [dateTail, tokAlts, altsM, List.map_append, List.findSome?_append,
    List.map_cons, List.map_nil]
  split_ifs <;> simp [List.findSome?, hfg]

theorem fmt2_fail_4 (a b c e m1 m2 d1 d2 : Nat) :
    strptimeF fmtMDYdash
      (digitChar a :: digitChar b :: digitChar c :: digitChar e ::
        dateTail m1 m2 d1 d2) = none := by
  apply strptimeF_none
  have hfg : ∀ w ts caps cs, reMatch (.lit '-' :: ts) caps (digitChar w :: cs) = none :=
    fun w ts caps cs => reMatch_lit_fail '-' (digitChar w) (lowerEq_dash_dc w) ts caps cs
  rw [fmtMDYdash, reMatch_cons_eq]
  simp only [dateTail, tokAlts, altsM, List.map_append, List.findSome?_append,
    List.map_cons, List.map_nil]
  split_ifs <;> simp [List.findSome?, hfg]

theorem fmt5_fail_1 (a m1 m2 d1 d2 : Nat) :
    strptimeF fmtDMYdash (digitChar a :: dateTail m1 m2 d1 d2) = none := by
  apply strptimeF_none
  have hok : ∀ ts caps cs, reMatch (.lit '-' :: ts) caps ('-' :: cs) = reMatch ts caps cs :=
    fun ts caps cs => reMatch_lit_ok '-' '-' (by decide) ts caps cs
  have hfg : ∀ w ts caps cs, reMatch (.lit '-' :: ts) caps (digitChar w :: cs) = none :=
    fun w ts caps cs => reMatch_lit_fail '-' (digitChar w) (lowerEq_dash_dc w) ts caps cs
  rw [fmtDMYdash, reMatch_cons_eq]
  simp only [dateTail, tokAlts, altsD, List.map_append, List.findSome?_append,
    List.map_cons, List.map_nil]
  split_ifs <;> simp [List.findSome?, hok, hfg, tailFail_tm]

theorem fmt5_fail_2 (a b m1 m2 d1 d2 : Nat) :
    strptimeF fmtDMYdash (digitChar a :: digitChar b :: dateTail m1 m2 d1 d2)
      = none := by
  apply strptimeF_none
  have hok : ∀ ts caps cs, reMatch (.lit '-' :: ts) caps ('-' :: cs) = reMatch ts caps cs :=
    fun ts caps cs => reMatch_lit_ok '-' '-' (by decide) ts caps cs
  have hfg : ∀ w ts caps cs, reMatch (.lit '-' :: ts) caps (digitChar w :: cs) = none :=
    fun w ts caps cs => reMatch_lit_fail '-' (digitChar w) (lowerEq_dash_dc w) ts caps cs
  rw [fmtDMYdash, reMatch_cons_eq]
  simp only [dateTail, tokAlts, altsD, List.map_append, List.findSome?_append,
    List.map_cons, List.map_nil]
  split_ifs <;> simp [List.findSome?, hok, hfg, tailFail_tm]

theorem fmt5_fail_3 (a b c m1 m2 d1 d2 : Nat) :
    strptimeF fmtDMYdash
      (digitChar a :: digitChar b :: digitChar c :: dateTail m1 m2 d1 d2) = none := by
  apply strptimeF_none
  have hfg : ∀ w ts caps cs, reMatch (.lit '-' :: ts) caps (digitChar w :: cs) = none :=
    fun w ts caps cs => reMatch_lit_fail '-' (digitChar w) (lowerEq_dash_dc w) ts caps cs
  rw [fmtDMYdash, reMatch_cons_eq]
  simp only [dateTail, tokAlts, altsD, List.map_append, List.findSome?_append,
    List.map_cons, List.map_nil]
  split_ifs <;> simp [List.findSome?, hfg]

/-! ## Success of `%Y-%m-%d` on its own output -/

theorem reMatch_tY_step (a b c e : Nat) (ha : a < 10) (hb : b < 10) (hc : c < 10)
    (he : e < 10) (ts : List Tok) (caps : Caps) (R : List Char) :
    reMatch (.tY :: ts) caps (digitChar a :: digitChar b :: digitChar c ::
      digitChar e :: R)
      = reMatch ts { caps with y := some (((a * 10 + b) * 10 + c) * 10 + e) } R := by
  rw [reMatch_cons_eq]
  have h : altsY (digitChar a :: digitChar b :: digitChar c :: digitChar e :: R)
      = [(((a * 10 + b) * 10 + c) * 10 + e, R)] := by
    simp [altsY, isDigitCh_dc, ha, hb, hc, he, digitVal_dc a ha, digitVal_dc b hb,
      digitVal_dc c hc, digitVal_dc e he]
  simp only [tokAlts, h, List.map_cons, List.map_nil, List.findSome?]
  cases reMatch ts { caps with y := some (((a * 10 + b) * 10 + c) * 10 + e) } R <;> rfl

theorem reMatch_tm_step0 (m2 : Nat) (h1 : 1 ≤ m2) (h9 : m2 ≤ 9) (ts : List Tok)
    (caps : Caps) (R : List Char) :
    reMatch (.tm :: ts) caps (digitChar 0 :: digitChar m2 :: R)
      = reMatch ts { caps with mo := some m2 } R := by
  rw [reMatch_cons_eq]
  have h : altsM (digitChar 0 :: digitChar m2 :: R) = [(m2, R)] := by
    simp [altsM, dcEq1, dcEq0, chB02, chB19, h1, h9, digitVal_dc m2 (by omega)]
  simp only [h, tokAlts, List.map_cons, List.map_nil, List.findSome?]
  cases reMatch ts { caps with mo := some m2 } R <;> rfl

theorem reMatch_tm_step1 (m2 : Nat) (h2 : m2 ≤ 2) (ts : List Tok) (caps : Caps)
    (R : List Char) (res : Caps × List Char)
    (hcont : reMatch ts { caps with mo := some (10 + m2) } R = some res) :
    reMatch (.tm :: ts) caps (digitChar 1 :: digitChar m2 :: R) = some res := by
  rw [reMatch_cons_eq]
  have h : altsM (digitChar 1 :: digitChar m2 :: R)
      = [(10 + m2, R), (1, digitChar m2 :: R)] := by
    simp [altsM, dcEq1, dcEq0, chB02, chB19, h2, digitVal_dc m2 (by omega),
      digitVal_dc 1 (by omega)]
  simp only [h, tokAlts, List.map_cons, List.map_nil, List.findSome?, hcont]

theorem reMatch_td_step0 (d2 : Nat) (h1 : 1 ≤ d2) (h9 : d2 ≤ 9) (ts : List Tok)
    (caps : Caps) (R : List Char) :
    reMatch (.td :: ts) caps (digitChar 0 :: digitChar d2 :: R)
      = reMatch ts { caps with dy := some d2 } R := by
  rw [reMatch_cons_eq]
  have h : altsD (digitChar 0 :: digitChar d2 :: R) = [(d2, R)] := by
    simp [altsD, dcEq3, dcEq0, dcEqSpace, chB01, chB12, chB19, isDigitCh_dc, h1, h9,
      digitVal_dc d2 (by omega)]
  simp only [h, tokAlts, List.map_cons, List.map_nil, List.findSome?]
  cases reMatch ts { caps with dy := some d2 } R <;> rfl

theorem reMatch_td_step12 (d1 d2 : Nat) (hlo : 1 ≤ d1) (hhi : d1 ≤ 2)
    (hd2 : d2 < 10) (ts : List Tok) (caps : Caps) (R : List Char)
    (res : Caps × List Char)
    (hcont : reMatch ts { caps with dy := some (10 * d1 + d2) } R = some res) :
    reMatch (.td :: ts) caps (digitChar d1 :: digitChar d2 :: R) = some res := by
  rw [reMatch_cons_eq]
  have hne3 : decide (digitChar d1 = '3') = false := by
    rw [dcEq3]
    have h3 : d1 ≠ 3 := by omega
    simp [h3]
  have hne0 : decide (digitChar d1 = '0') = false := by
    rw [dcEq0]
    have h0 : d1 ≠ 0 := by omega
    simp [h0]
  have hb12 : chBetween '1' '2' (digitChar d1) = true := by
    rw [chB12]; exact decide_eq_true ⟨hlo, hhi⟩
  have hb19 : chBetween '1' '9' (digitChar d1) = true := by
    rw [chB19]; exact decide_eq_true ⟨hlo, by omega⟩
  have hdig : isDigitCh (digitChar d2) = true := by
    rw [isDigitCh_dc]; exact decide_eq_true hd2
  have h : altsD (digitChar d1 :: digitChar d2 :: R)
      = [(10 * d1 + d2, R), (d1, digitChar d2 :: R)] := by
    simp [altsD, hne3, hne0, hb12, hb19, hdig, dcEqSpace,
      digitVal_dc d1 (by omega), digitVal_dc d2 (by omega)]
  simp only [h, tokAlts, List.map_cons, List.map_nil, List.findSome?, hcont]

theorem reMatch_td_step3 (d2 : Nat) (hd2 : d2 ≤ 1) (ts : List Tok) (caps : Caps)
    (R : List Char) (res : Caps × List Char)
    (hcont : reMatch ts { caps with dy := some (30 + d2) } R = some res) :
    reMatch (.td :: ts) caps (digitChar 3 :: digitChar d2 :: R) = some res := by
  rw [reMatch_cons_eq]
  have h : altsD (digitChar 3 :: digitChar d2 :: R)
      = [(30 + d2, R), (3, digitChar d2 :: R)] := by
    simp [altsD, dcEq3, dcEq0, dcEqSpace, chB01, chB12, chB19, isDigitCh_dc, hd2,
      digitVal_dc 3 (by omega), digitVal_dc d2 (by omega)]
  simp only [h, tokAlts, List.map_cons, List.map_nil, List.findSome?, hcont]

theorem reMatch_td_end0 (d2 : Nat) (h1 : 1 ≤ d2) (h9 : d2 ≤ 9) (caps : Caps) :
    reMatch [.td] caps [digitChar 0, digitChar d2]
      = some ({ caps with dy := some d2 }, []) := by
  rw [reMatch_td_step0 d2 h1 h9]; rfl

theorem reMatch_td_end12 (d1 d2 : Nat) (hlo : 1 ≤ d1) (hhi : d1 ≤ 2) (hd2 : d2 < 10)
    (caps : Caps) :
    reMatch [.td] caps [digitChar d1, digitChar d2]
      = some ({ caps with dy := some (10 * d1 + d2) }, []) :=
  reMatch_td_step12 d1 d2 hlo hhi hd2 [] caps [] _ rfl

theorem reMatch_td_end3 (d2 : Nat) (hd2 : d2 ≤ 1) (caps : Caps) :
    reMatch [.td] caps [digitChar 3, digitChar d2]
      = some ({ caps with dy := some (30 + d2) }, []) :=
  reMatch_td_step3 d2 hd2 [] caps [] _ rfl

/-- `%Y-%m-%d` on a four-digit-year output of `fmtDateChars`: the first
regex match consumes everything and captures exactly the printed date. -/
theorem fmt3_success (a b c e m1 m2 d1 d2 : Nat)
    (ha : a < 10) (hb : b < 10) (hc : c < 10) (he : e < 10)
    (hmcase : (m1 = 0 ∧ 1 ≤ m2 ∧ m2 ≤ 9) ∨ (m1 = 1 ∧ m2 ≤ 2))
    (hdcase : (d1 = 3 ∧ d2 ≤ 1) ∨ (1 ≤ d1 ∧ d1 ≤ 2 ∧ d2 < 10) ∨
      (d1 = 0 ∧ 1 ≤ d2 ∧ d2 ≤ 9)) :
    strptimeF fmtISO (digitChar a :: digitChar b :: digitChar c :: digitChar e ::
        dateTail m1 m2 d1 d2)
      = buildDate { y := some (((a * 10 + b) * 10 + c) * 10 + e),
                    mo := some (10 * m1 + m2), dy := some (10 * d1 + d2) } := by
  have hok : ∀ ts caps cs,
      reMatch (.lit '-' :: ts) caps ('-' :: cs) = reMatch ts caps cs :=
    fun ts caps cs => reMatch_lit_ok '-' '-' (by decide) ts caps cs
  rw [strptimeF, fmtISO, dateTail, reMatch_tY_step a b c e ha hb hc he, hok]
  rcases hmcase with ⟨hm1, hm2a, hm2b⟩ | ⟨hm1, hm2⟩
  · subst hm1
    rw [reMatch_tm_step0 m2 hm2a hm2b, hok]
    rcases hdcase with ⟨hd1, hd2a⟩ | ⟨hdlo, hdhi, hd2a⟩ | ⟨hd1, hd2a, hd2b⟩
    · subst hd1
      rw [reMatch_td_end3 d2 hd2a]
      try dsimp only
      try norm_num
    · rw [reMatch_td_end12 d1 d2 hdlo hdhi hd2a]
      try dsimp only
      try norm_num
    · subst hd1
      rw [reMatch_td_end0 d2 hd2a hd2b]
      try dsimp only
      try norm_num
  · subst hm1
    rcases hdcase with ⟨hd1, hd2a⟩ | ⟨hdlo, hdhi, hd2a⟩ | ⟨hd1, hd2a, hd2b⟩
    · subst hd1
      rw [reMatch_tm_step1 m2 hm2 _ _ _ _
        ((hok _ _ _).trans (reMatch_td_end3 d2 hd2a _))]
      try dsimp only
      try norm_num
    · rw [reMatch_tm_step1 m2 hm2 _ _ _ _
        ((hok _ _ _).trans (reMatch_td_end12 d1 d2 hdlo hdhi hd2a _))]
      try dsimp only
      try norm_num
    · subst hd1
      rw [reMatch_tm_step1 m2 hm2 _ _ _ _
        ((hok _ _ _).trans (reMatch_td_end0 d2 hd2a hd2b _))]
      try dsimp only
      try norm_num

/-! ## Shape of `fmtDateChars` output, stripping, and capture bounds -/

theorem natCharsF_eq (n : Nat) : ∀ fuel : Nat, n < fuel → natCharsF fuel n = natChars n := by
  induction n using Nat.strong_induction_on with
  | _ n ih =>
      intro fuel h
      match fuel with
      | 0 => omega
      | k + 1 =>
          by_cases h10 : n < 10
          · simp [natCharsF, natChars, h10]
          · have hdiv : n / 10 < n := Nat.div_lt_self (by omega) (by omega)
            rw [show natCharsF (k + 1) n
                = natCharsF k (n / 10) ++ [digitChar (n % 10)] from by
              simp [natCharsF, h10]]
            rw [ih (n / 10) hdiv k (by omega)]
            rw [show natChars n = natCharsF n (n / 10) ++ [digitChar (n % 10)] from by
              simp [natChars, natCharsF, h10]]
            rw [ih (n / 10) hdiv n (by omega)]

theorem natChars_lt10 (n : Nat) (h : n < 10) : natChars n = [digitChar n] := by
  simp [natChars, natCharsF, h]

theorem natChars_ge10 (n : Nat) (h : 10 ≤ n) :
    natChars n = natChars (n / 10) ++ [digitChar (n % 10)] := by
  rw [show natChars n = natCharsF n (n / 10) ++ [digitChar (n % 10)] from by
    simp [natChars, natCharsF, Nat.not_lt.mpr h]]
  rw [natCharsF_eq (n / 10) n (Nat.div_lt_self (by omega) (by omega))]

theorem natChars_digits2 (n : Nat) (h1 : 10 ≤ n) (h2 : n ≤ 99) :
    natChars n = [digitChar (n / 10), digitChar (n % 10)] := by
  rw [natChars_ge10 n h1, natChars_lt10 (n / 10) (by omega)]
  rfl

theorem natChars_digits3 (n : Nat) (h1 : 100 ≤ n) (h2 : n ≤ 999) :
    natChars n = [digitChar (n / 100), digitChar (n / 10 % 10), digitChar (n % 10)] := by
  rw [natChars_ge10 n (by omega), natChars_digits2 (n / 10) (by omega) (by omega)]
  rw [Nat.div_div_eq_div_mul]
  rfl

theorem natChars_digits4 (n : Nat) (h1 : 1000 ≤ n) (h2 : n ≤ 9999) :
    natChars n = [digitChar (n / 1000), digitChar (n / 100 % 10),
      digitChar (n / 10 % 10), digitChar (n % 10)] := by
  rw [natChars_ge10 n (by omega), natChars_digits3 (n / 10) (by omega) (by omega)]
  rw [Nat.div_div_eq_div_mul, Nat.div_div_eq_div_mul]
  rfl

theorem natChars_all (n : Nat) :
    ∀ c ∈ natChars n, ∃ v, v < 10 ∧ c = digitChar v := by
  induction n using Nat.strong_induction_on with
  | _ n ih =>
      by_cases h10 : n < 10
      · rw [natChars_lt10 n h10]
        intro c hc
        rw [List.mem_singleton.mp hc]
        exact ⟨n, h10, rfl⟩
      · rw [natChars_ge10 n (by omega)]
        intro c hc
        rcases List.mem_append.mp hc with hc1 | hc2
        · exact ih (n / 10) (Nat.div_lt_self (by omega) (by omega)) c hc1
        · rw [List.mem_singleton.mp hc2]
          exact ⟨n % 10, by omega, rfl⟩

theorem pad2_lt10 (n : Nat) (h : n < 10) : pad2 n = [digitChar 0, digitChar n] := by
  simp [pad2, h]; rfl

theorem pad2_ge10 (n : Nat) (h1 : 10 ≤ n) (h2 : n ≤ 99) :
    pad2 n = [digitChar (n / 10), digitChar (n % 10)] := by
  rw [pad2, if_neg (by omega)]
  exact natChars_digits2 n h1 h2

theorem pad2_all (n : Nat) (h : n ≤ 99) :
    ∀ c ∈ pad2 n, ∃ v, v < 10 ∧ c = digitChar v := by
  by_cases h10 : n < 10
  · rw [pad2_lt10 n h10]
    intro c hc
    simp only [List.mem_cons, List.not_mem_nil, or_false] at hc
    rcases hc with rfl | rfl
    · exact ⟨0, by omega, rfl⟩
    · exact ⟨n, h10, rfl⟩
  · rw [pad2_ge10 n (by omega) h]
    intro c hc
    simp only [List.mem_cons, List.not_mem_nil, or_false] at hc
    rcases hc with rfl | rfl
    · exact ⟨n / 10, by omega, rfl⟩
    · exact ⟨n % 10, by omega, rfl⟩

theorem natChars_ne_nil2 (n : Nat) : natChars n ≠ [] := by
  rw [natChars, natCharsF]
  split <;> simp

theorem fmtDateChars_no_ws (y m d : Nat) (hm : m ≤ 99) (hd : d ≤ 99) :
    ∀ c ∈ fmtDateChars y m d, pyWs c = false := by
  intro c hc
  rw [fmtDateChars] at hc
  rcases List.mem_append.mp hc with hc1 | hc2
  · obtain ⟨v, hv, rfl⟩ := natChars_all y c hc1
    exact pyWs_dc v
  · rcases List.mem_cons.mp hc2 with rfl | hc3
    · decide
    · rcases List.mem_append.mp hc3 with hc4 | hc5
      · obtain ⟨v, hv, rfl⟩ := pad2_all m hm c hc4
        exact pyWs_dc v
      · rcases List.mem_cons.mp hc5 with rfl | hc6
        · decide
        · obtain ⟨v, hv, rfl⟩ := pad2_all d hd c hc6
          exact pyWs_dc v

theorem fmtDateChars_ne_nil (y m d : Nat) : fmtDateChars y m d ≠ [] := by
  rw [fmtDateChars]
  intro h
  exact natChars_ne_nil2 y (by
    cases hnc : natChars y with
    | nil => rfl
    | cons a l => rw [hnc] at h; simp at h)

/-! ### Python `strip` facts -/

theorem dropWhile_all_false (p : Char → Bool) :
    ∀ l : List Char, (∀ c ∈ l, p c = false) → l.dropWhile p = l := by
  intro l h
  cases l with
  | nil => rfl
  | cons c l => rw [List.dropWhile_cons, h c (List.mem_cons_self c l)]; simp

theorem dropWhile_head_false (p : Char → Bool) :
    ∀ (l : List Char) (c : Char), (l.dropWhile p).head? = some c → p c = false := by
  intro l
  induction l with
  | nil => intro c h; simp [List.dropWhile] at h
  | cons c0 l ih =>
      intro c h
      by_cases hp : p c0
      · rw [List.dropWhile_cons, if_pos hp] at h
        exact ih c h
      · rw [List.dropWhile_cons, if_neg hp] at h
        simp only [List.head?_cons, Option.some.injEq] at h
        rw [← h]
        exact Bool.eq_false_iff.mpr hp

theorem dropWhile_head_self (p : Char → Bool) (l : List Char)
    (h : ∀ c, l.head? = some c → p c = false) : l.dropWhile p = l := by
  cases l with
  | nil => rfl
  | cons c l => rw [List.dropWhile_cons, h c rfl]; simp

theorem dropWhile_getLast (p : Char → Bool) :
    ∀ l : List Char, l.dropWhile p ≠ [] → (l.dropWhile p).getLast? = l.getLast? := by
  intro l
  induction l with
  | nil => intro h; exact absurd rfl h
  | cons c0 l ih =>
      intro h
      by_cases hp : p c0
      · rw [List.dropWhile_cons, if_pos hp] at h ⊢
        rw [ih h]
        have hl : l ≠ [] := by
          intro he; rw [he] at h; exact h rfl
        cases l with
        | nil => exact absurd rfl hl
        | cons x xs => rfl
      · rw [List.dropWhile_cons, if_neg hp]

theorem stripChars_no_ws (cs : List Char) (h : ∀ c ∈ cs, pyWs c = false) :
    stripChars cs = cs := by
  rw [stripChars, dropWhile_all_false pyWs cs h,
    dropWhile_all_false pyWs cs.reverse (fun c hc => h c (List.mem_reverse.mp hc)),
    List.reverse_reverse]

theorem stripChars_idem (cs : List Char) : stripChars (stripChars cs) = stripChars cs := by
  by_cases hr : (((cs.dropWhile pyWs).reverse).dropWhile pyWs) = []
  · have hnil : stripChars cs = [] := by rw [stripChars, hr]; rfl
    rw [hnil]
    rfl
  · have hX : (stripChars cs).dropWhile pyWs = stripChars cs := by
      apply dropWhile_head_self
      intro c hc
      rw [stripChars, List.head?_reverse, dropWhile_getLast pyWs _ hr,
        List.getLast?_reverse] at hc
      exact dropWhile_head_false pyWs cs c hc
    have hXr : ((stripChars cs).reverse).dropWhile pyWs = (stripChars cs).reverse := by
      apply dropWhile_head_self
      intro c hc
      rw [stripChars, List.reverse_reverse] at hc
      exact dropWhile_head_false pyWs _ c hc
    calc stripChars (stripChars cs)
        = (((stripChars cs).dropWhile pyWs).reverse.dropWhile pyWs).reverse := rfl
      _ = ((stripChars cs).reverse.dropWhile pyWs).reverse := by rw [hX]
      _ = ((stripChars cs).reverse).reverse := by rw [hXr]
      _ = stripChars cs := List.reverse_reverse _

/-! ### Bounds carried by a successful parse -/

theorem daysInMonth_le31 (y m : Nat) : daysInMonth y m ≤ 31 := by
  rw [daysInMonth]
  split_ifs <;> omega

theorem buildDate_bounds (caps : Caps) (y m d : Nat)
    (h : buildDate caps = some (y, m, d)) :
    1 ≤ y ∧ y ≤ 9999 ∧ 1 ≤ m ∧ m ≤ 12 ∧ 1 ≤ d ∧ d ≤ daysInMonth y m := by
  rw [buildDate] at h
  split_ifs at h with hc
  · simp only [Option.some.injEq, Prod.mk.injEq] at h
    obtain ⟨hy, hm, hd⟩ := h
    simp only [Bool.and_eq_true, decide_eq_true_eq] at hc
    obtain ⟨⟨⟨⟨⟨⟨⟨⟨⟨h1, h2⟩, h3⟩, h4⟩, h5⟩, h6⟩, _⟩, _⟩, _⟩, _⟩ := hc
    subst hy hm hd
    exact ⟨h1, h2, h3, h4, h5, h6⟩

theorem strptimeF_bounds (toks : List Tok) (cs : List Char) (y m d : Nat)
    (h : strptimeF toks cs = some (y, m, d)) :
    1 ≤ y ∧ y ≤ 9999 ∧ 1 ≤ m ∧ m ≤ 12 ∧ 1 ≤ d ∧ d ≤ daysInMonth y m := by
  rw [strptimeF] at h
  cases hres : reMatch toks {} cs with
  | none => rw [hres] at h; exact absurd h (by simp)
  | some p =>
      obtain ⟨caps, rest⟩ := p
      rw [hres] at h
      cases rest with
      | nil => exact buildDate_bounds caps y m d h
      | cons x xs => exact absurd h (by simp)

/-! ## `parseAndFormatDate` fixes its own successful output -/

theorem buildDate_valid (y m d : Nat) (hy1 : 1 ≤ y) (hy2 : y ≤ 9999) (hm1 : 1 ≤ m)
    (hm2 : m ≤ 12) (hd1 : 1 ≤ d) (hd2 : d ≤ daysInMonth y m) :
    buildDate { y := some y, mo := some m, dy := some d } = some (y, m, d) := by
  rw [buildDate]
  simp [hy1, hy2, hm1, hm2, hd1, hd2]

theorem parseAndFormatDate_fmtDate (y m d : Nat)
    (hy1 : 1 ≤ y) (hy2 : y ≤ 9999) (hm1 : 1 ≤ m) (hm2 : m ≤ 12)
    (hd1 : 1 ≤ d) (hd2 : d ≤ daysInMonth y m) :
    parseAndFormatDate (fmtDate y m d) = fmtDate y m d := by
  have hd31 : d ≤ 31 := le_trans hd2 (daysInMonth_le31 y m)
  obtain ⟨M1, M2, hpadm, hmcase, hmval⟩ :
      ∃ M1 M2, pad2 m = [digitChar M1, digitChar M2] ∧
        ((M1 = 0 ∧ 1 ≤ M2 ∧ M2 ≤ 9) ∨ (M1 = 1 ∧ M2 ≤ 2)) ∧ 10 * M1 + M2 = m := by
    by_cases hmlt : m < 10
    · exact ⟨0, m, pad2_lt10 m hmlt, Or.inl ⟨rfl, hm1, by omega⟩, by omega⟩
    · exact ⟨m / 10, m % 10, pad2_ge10 m (by omega) (by omega),
        Or.inr ⟨by omega, by omega⟩, by omega⟩
  obtain ⟨D1, D2, hpadd, hdcase, hdval⟩ :
      ∃ D1 D2, pad2 d = [digitChar D1, digitChar D2] ∧
        ((D1 = 3 ∧ D2 ≤ 1) ∨ (1 ≤ D1 ∧ D1 ≤ 2 ∧ D2 < 10) ∨
          (D1 = 0 ∧ 1 ≤ D2 ∧ D2 ≤ 9)) ∧ 10 * D1 + D2 = d := by
    by_cases hdlt : d < 10
    · exact ⟨0, d, pad2_lt10 d hdlt, Or.inr (Or.inr ⟨rfl, hd1, by omega⟩), by omega⟩
    · by_cases hd30 : d < 30
      · exact ⟨d / 10, d % 10, pad2_ge10 d (by omega) (by omega),
          Or.inr (Or.inl ⟨by omega, by omega, by omega⟩), by omega⟩
      · exact ⟨d / 10, d % 10, pad2_ge10 d (by omega) (by omega),
          Or.inl ⟨by omega, by omega⟩, by omega⟩
  have hstrip : stripChars (fmtDate y m d).data = fmtDateChars y m d :=
    stripChars_no_ws _ (fmtDateChars_no_ws y m d (by omega) (by omega))
  have hne : fmtDateChars y m d ≠ [] := fmtDateChars_ne_nil y m d
  rw [parseAndFormatDate]
  simp only [hstrip]
  rw [if_neg hne]
  by_cases hy1000 : 1000 ≤ y
  · -- four-digit year: `%Y-%m-%d` is the first matching format
    have hfc : fmtDateChars y m d
        = digitChar (y / 1000) :: digitChar (y / 100 % 10) :: digitChar (y / 10 % 10) ::
          digitChar (y % 10) :: dateTail M1 M2 D1 D2 := by
      rw [fmtDateChars, natChars_digits4 y hy1000 hy2, hpadm, hpadd, dateTail]
      rfl
    rw [hfc]
    have h1 := fmt1_fail_4 (y / 1000) (y / 100 % 10) (y / 10 % 10) (y % 10) M1 M2 D1 D2
    have h2 := fmt2_fail_4 (y / 1000) (y / 100 % 10) (y / 10 % 10) (y % 10) M1 M2 D1 D2
    have h3 := fmt3_success (y / 1000) (y / 100 % 10) (y / 10 % 10) (y % 10) M1 M2 D1 D2
      (by omega) (by omega) (by omega) (by omega) hmcase hdcase
    rw [show ((y / 1000 * 10 + y / 100 % 10) * 10 + y / 10 % 10) * 10 + y % 10 = y from
      by omega, hmval, hdval, buildDate_valid y m d hy1 hy2 hm1 hm2 hd1 hd2] at h3
    simp only [lDateFormats, List.findSome?, h1, h2, h3]
  · -- short year: no format matches, the string is returned unchanged
    have hfail : ∀ f ∈ lDateFormats, strptimeF f (fmtDateChars y m d) = none := by
      by_cases hy100 : 100 ≤ y
      · have hfc : fmtDateChars y m d
            = digitChar (y / 100) :: digitChar (y / 10 % 10) :: digitChar (y % 10) ::
              dateTail M1 M2 D1 D2 := by
          rw [fmtDateChars, natChars_digits3 y hy100 (by omega), hpadm, hpadd, dateTail]
          rfl
        intro f hf
        rw [hfc]
        fin_cases hf
        · exact fmt1_fail_3 _ _ _ M1 M2 D1 D2
        · exact fmt2_fail_3 _ _ _ M1 M2 D1 D2
        · rw [fmtISO]; exact tY_head_fail _ _ (altsY_dash4 _ _ _ _)
        · exact fmt4_fail_3 _ _ _ M1 M2 D1 D2
        · exact fmt5_fail_3 _ _ _ M1 M2 D1 D2
        · rw [fmtBdY]; exact name_head_fail _ _ _ _ (tokAlts_tB_dc _ _)
        · rw [fmtbdY]; exact name_head_fail _ _ _ _ (tokAlts_tb_dc _ _)
        · rw [fmtRfcZname]; exact name_head_fail _ _ _ _ (tokAlts_ta_dc _ _)
        · rw [fmtRfcZoff]; exact name_head_fail _ _ _ _ (tokAlts_ta_dc _ _)
        · rw [fmtIsoTZoff]; exact tY_head_fail _ _ (altsY_dash4 _ _ _ _)
        · rw [fmtIsoTZlit]; exact tY_head_fail _ _ (altsY_dash4 _ _ _ _)
      · by_cases hy10 : 10 ≤ y
        · have hfc : fmtDateChars y m d
              = digitChar (y / 10) :: digitChar (y % 10) :: dateTail M1 M2 D1 D2 := by
            rw [fmtDateChars, natChars_digits2 y hy10 (by omega), hpadm, hpadd, dateTail]
            rfl
          intro f hf
          rw [hfc]
          fin_cases hf
          · exact fmt1_fail_2 _ _ M1 M2 D1 D2
          · exact fmt2_fail_2 _ _ M1 M2 D1 D2
          · rw [fmtISO]; exact tY_head_fail _ _ (altsY_dash3 _ _ _)
          · exact fmt4_fail_2 _ _ M1 M2 D1 D2
          · exact fmt5_fail_2 _ _ M1 M2 D1 D2
          · rw [fmtBdY]; exact name_head_fail _ _ _ _ (tokAlts_tB_dc _ _)
          · rw [fmtbdY]; exact name_head_fail _ _ _ _ (tokAlts_tb_dc _ _)
          · rw [fmtRfcZname]; exact name_head_fail _ _ _ _ (tokAlts_ta_dc _ _)
          · rw [fmtRfcZoff]; exact name_head_fail _ _ _ _ (tokAlts_ta_dc _ _)
          · rw [fmtIsoTZoff]; exact tY_head_fail _ _ (altsY_dash3 _ _ _)
          · rw [fmtIsoTZlit]; exact tY_head_fail _ _ (altsY_dash3 _ _ _)
        · have hfc : fmtDateChars y m d = digitChar y :: dateTail M1 M2 D1 D2 := by
            rw [fmtDateChars, natChars_lt10 y (by omega), hpadm, hpadd, dateTail]
            rfl
          intro f hf
          rw [hfc]
          fin_cases hf
          · exact fmt1_fail_1 _ M1 M2 D1 D2
          · exact fmt2_fail_1 _ M1 M2 D1 D2
          · rw [fmtISO]; exact tY_head_fail _ _ (altsY_dash2 _ _)
          · exact fmt4_fail_1 _ M1 M2 D1 D2
          · exact fmt5_fail_1 _ M1 M2 D1 D2
          · rw [fmtBdY]; exact name_head_fail _ _ _ _ (tokAlts_tB_dc _ _)
          · rw [fmtbdY]; exact name_head_fail _ _ _ _ (tokAlts_tb_dc _ _)
          · rw [fmtRfcZname]; exact name_head_fail _ _ _ _ (tokAlts_ta_dc _ _)
          · rw [fmtRfcZoff]; exact name_head_fail _ _ _ _ (tokAlts_ta_dc _ _)
          · rw [fmtIsoTZoff]; exact tY_head_fail _ _ (altsY_dash2 _ _)
          · rw [fmtIsoTZlit]; exact tY_head_fail _ _ (altsY_dash2 _ _)
    have hnone : lDateFormats.findSome? (fun f => strptimeF f (fmtDateChars y m d))
        = none := by
      rw [List.findSome?_eq_none_iff]
      exact hfail
    rw [hnone]
    rfl

theorem parseAndFormatDate_idem (s : String) :
    parseAndFormatDate (parseAndFormatDate s) = parseAndFormatDate s := by
  by_cases ht : stripChars s.data = []
  · have h1 : parseAndFormatDate s = "" := by
      simp [parseAndFormatDate, ht]
    rw [h1]
    decide
  · cases hf : lDateFormats.findSome? (fun f => strptimeF f (stripChars s.data)) with
    | none =>
        have h1 : parseAndFormatDate s = ⟨stripChars s.data⟩ := by
          simp [parseAndFormatDate, ht, hf]
        rw [h1, parseAndFormatDate]
        simp only [show (⟨stripChars s.data⟩ : String).data = stripChars s.data from rfl,
          stripChars_idem]
        simp [ht, hf]
    | some ymd =>
        obtain ⟨y, m, d⟩ := ymd
        have h1 : parseAndFormatDate s = fmtDate y m d := by
          simp [parseAndFormatDate, ht, hf]
        obtain ⟨f, hfmem, hfeq⟩ :
            ∃ f, f ∈ lDateFormats ∧ strptimeF f (stripChars s.data) = some (y, m, d) := by
          obtain ⟨l1, a, l2, hsplit, hsome, _⟩ := List.findSome?_eq_some_iff.mp hf
          refine ⟨a, ?_, hsome⟩
          rw [hsplit]
          exact List.mem_append_right _ (List.mem_cons_self a l2)
        obtain ⟨hb1, hb2, hb3, hb4, hb5, hb6⟩ := strptimeF_bounds f _ y m d hfeq
        rw [h1]
        exact parseAndFormatDate_fmtDate y m d hb1 hb2 hb3 hb4 hb5 hb6

/-! ## Claim theorems -/

/-- C9: the Date Normalizer is idempotent — a successfully normalized
`YYYY-MM-DD` result re-normalizes to itself (for a four-or-more-digit
printed year via `%Y-%m-%d`, for a shorter printed year because no format
accepts it and it is returned as-is), and an unmatched input is returned
stripped, so a second pass changes nothing. -/
theorem c9_normalizer_idempotent (s : String) :
    parseAndFormatDate (parseAndFormatDate s) = parseAndFormatDate s :=
  parseAndFormatDate_idem s

/-- C6: the Date Normalizer maps `"March 18, 2025"` to `"2025-03-18"`,
maps `"Tue, 18 Mar 2025 00:00:00 GMT"` to `"2025-03-18"`, returns
`"not a date"` unchanged, and returns empty output for empty input. -/
theorem c6_date_normalizer_examples :
    parseAndFormatDate "March 18, 2025" = "2025-03-18" ∧
    parseAndFormatDate "Tue, 18 Mar 2025 00:00:00 GMT" = "2025-03-18" ∧
    parseAndFormatDate "not a date" = "not a date" ∧
    parseAndFormatDate "" = "" :=
  ⟨by decide, by decide, by decide, by decide⟩

/-- C7: because `%m/%d/%Y` is tried before `%d/%m/%Y`, the ambiguous input
`"03/04/2025"` resolves to March 4 (`"2025-03-04"`), never April 3. -/
theorem c7_month_day_priority :
    parseAndFormatDate "03/04/2025" = "2025-03-04" ∧
    parseAndFormatDate "03/04/2025" ≠ "2025-04-03" :=
  ⟨by decide, by decide⟩

theorem foldl_startTitleStep_ne (t : String) (ht : t ≠ "") :
    ∀ ts : List String, ts.foldl startTitleStep t = t := by
  intro ts
  induction ts with
  | nil => rfl
  | cons x xs ih =>
      have h1 : startTitleStep t x = t := by simp [startTitleStep, ht]
      rw [List.foldl_cons, h1]
      exact ih

/-- C4 counterexample to the original first-page reading: with an untitled
first page and a second page titled `"Inner"`, the code captures `"Inner"`
(line 163 assigns only while `sStartTitle` is empty) and writes
`Inner.csv`, while deriving from the first processed page's title — blank,
hence the claimed fallback — would predict `output.csv`. -/
theorem c4_first_page_counterexample :
    startTitleOf ["", "Inner"] = "Inner" ∧
    claimFirstTitle ["", "Inner"] = "" ∧
    closedCsvFileName (startTitleOf ["", "Inner"]) [] = "Inner.csv" ∧
    closedCsvFileName (claimFirstTitle ["", "Inner"]) [] = "output.csv" ∧
    closedCsvFileName (startTitleOf ["", "Inner"]) [] ≠
      closedCsvFileName (claimFirstTitle ["", "Inner"]) [] := by
  decide

/-- C4 (corrected): the output base name is derived from the first
NON-EMPTY processed-page title — a blank title leaves `sStartTitle` empty
and a later page's title is captured; the `"output"` fallback applies when
the captured title is blank after trimming; the characters
`\ / : * ? " < > |` are stripped; and collisions append a zero-padded
numeric suffix, so with `Home.csv` already existing a captured title
`"Home"` yields `Home-01.csv` (and with `Home-01.csv` also existing,
`Home-02.csv`), while an untitled start page followed by a page titled
`"Inner"` writes `Inner.csv`. -/
theorem c4_output_file_naming :
    (∀ (t : String) (ts : List String), t ≠ "" → startTitleOf (t :: ts) = t) ∧
    (∀ ts : List String, startTitleOf ("" :: ts) = startTitleOf ts) ∧
    (∀ titles : List String, pyStrip (startTitleOf titles) = "" →
        deriveRoot (startTitleOf titles) = "output") ∧
    (∀ s : String, ∀ c ∈ (sanitizeName s).data, badNameChar c = false) ∧
    closedCsvFileName (startTitleOf ["Home"]) ["Home.csv"] = "Home-01.csv" ∧
    closedCsvFileName (startTitleOf ["Home"]) ["Home.csv", "Home-01.csv"]
      = "Home-02.csv" ∧
    closedCsvFileName (startTitleOf []) ["x.csv"] = "output.csv" := by
  refine ⟨fun t ts ht => ?_, fun ts => ?_, fun titles h => ?_, fun s c hc => ?_,
    by decide, by decide, by decide⟩
  · show List.foldl startTitleStep "" (t :: ts) = t
    have h0 : startTitleStep "" t = t := by simp [startTitleStep]
    rw [List.foldl_cons, h0]
    exact foldl_startTitleStep_ne t ht ts
  · show List.foldl startTitleStep "" ("" :: ts) = startTitleOf ts
    have h0 : startTitleStep "" "" = "" := by simp [startTitleStep]
    rw [List.foldl_cons, h0]
    rfl
  · simp [deriveRoot, h]
  · have := List.mem_filter.mp hc
    simpa using this.2

/-- Witness for C4 at concrete inputs, including the capture of a
whitespace-only title that then strips to the fallback. -/
theorem c4_output_file_naming_witness :
    ("Home" ≠ "" ∧ startTitleOf ["Home", "Second"] = "Home") ∧
    (pyStrip (startTitleOf [" "]) = "" ∧
      deriveRoot (startTitleOf [" "]) = "output") ∧
    badNameChar 'e' = false :=
  ⟨⟨by decide, c4_output_file_naming.1 "Home" ["Second"] (by decide)⟩,
   ⟨by decide, c4_output_file_naming.2.2.1 [" "] (by decide)⟩,
   c4_output_file_naming.2.2.2.1 "H*o<m>e" 'e' (by decide)⟩

/-- C2 counterexample: when the CSV write fails (`csvOk = false`), even
with logging enabled and a present handler, `closed` neither attempts the
log write nor prints the summary line — the failure is reported and then
`closed` returns. -/
theorem c2_csv_failure_counterexample :
    (closedEffects true true false true).csvErrorLogged = true ∧
    (closedEffects true true false true).logAttempted = false ∧
    (closedEffects true true false true).summaryPrinted = false := by decide

/-- C2 amended: a CSV write failure is reported but ends the shutdown
sequence immediately (no log write, no summary); in the other direction a
log write failure is reported and does not suppress the summary line or
the already-written report. -/
theorem c2_csv_failure_fatal_to_rest :
    ∀ logCfg handlerPresent logOk : Bool,
      closedEffects logCfg handlerPresent false logOk =
        { csvErrorLogged := true, logAttempted := false, logErrorLogged := false,
          summaryPrinted := false } ∧
      (closedEffects logCfg handlerPresent true logOk).summaryPrinted = true ∧
      (closedEffects logCfg handlerPresent true logOk).csvErrorLogged = false ∧
      (closedEffects true true true false).logErrorLogged = true := by decide

/-- C3: the claim is right and the code is wrong — because the module
global `MEM_LOG_HANDLER` is initialised to `None` and never assigned, the
guard at line 237 (`... and MEM_LOG_HANDLER is not None`) is always false,
so for every run, logging enabled or not, CSV write succeeded or not, the
log-file write is never attempted. -/
theorem c3_log_write_never_attempted :
    ∀ logCfg csvOk logOk : Bool,
      (closedRun logCfg csvOk logOk).logAttempted = false := by decide

theorem length_filter_isSome_add (fetch : String → Option Page) :
    ∀ l : List String,
      (l.filter (fun u => (fetch u).isSome)).length +
        (l.filter (fun u => (fetch u).isNone)).length = l.length := by
  intro l
  induction l with
  | nil => simp
  | cons x xs ih =>
      cases hf : fetch x <;> simp [List.filter_cons, hf] <;> omega

/-- C8: in List Mode the caller-supplied URL list is deduplicated before
fetching (duplicates collapse to one, membership is preserved), discovered
links are never followed — the run consumes exactly the seed queue and its
records are exactly the successfully fetched seeds — so the number of page
records is the size of the deduplicated list minus the number of fetch
failures. -/
theorem c8_list_mode_counts (cfg : CrawlConfig) (hmode : bUrlListMode cfg = true)
    (fetch : String → Option Page) (sched : String → Nat → Bool) (fuel : Nat)
    (hfuel : (lUrlList cfg).length ≤ fuel) :
    ((lUrlList cfg).Nodup ∧
      (∀ u, u ∈ lUrlList cfg ↔
        u ∈ ((splitNL cfg.urlList.data).map
              (fun l => (⟨stripChars l⟩ : String))).filter (· ≠ ""))) ∧
    (crawlRun cfg fetch sched fuel (initState cfg)).lItems
      = (lUrlList cfg).filter (fun u => (fetch u).isSome) ∧
    (crawlRun cfg fetch sched fuel (initState cfg)).lItems.length
      = (lUrlList cfg).length -
          ((lUrlList cfg).filter (fun u => (fetch u).isNone)).length := by
  have hinit : initState cfg =
      ⟨lUrlList cfg, (lUrlList cfg).map (fun u => (u, 0)), []⟩ := by
    simp [initState, hmode]
  have hrun := listMode_run cfg hmode fetch sched fuel
    ((lUrlList cfg).map (fun u => (u, 0))) (lUrlList cfg) [] (by simpa using hfuel)
  have hitems : (crawlRun cfg fetch sched fuel (initState cfg)).lItems
      = (lUrlList cfg).filter (fun u => (fetch u).isSome) := by
    rw [hinit, hrun]
    have hfst : (Prod.fst ∘ fun u : String => (u, 0)) = id := rfl
    simp only [List.nil_append, List.map_map, hfst, List.map_id]
  refine ⟨⟨nodup_dedupKeepFirst _ _, fun u => by
      rw [lUrlList, mem_dedupKeepFirst]; simp⟩, hitems, ?_⟩
  rw [hitems]
  have := length_filter_isSome_add fetch (lUrlList cfg)
  omega

def listWitnessCfg : CrawlConfig :=
  { urlList := "http://a\nhttp://b\nhttp://a\nhttp://c" }

def listWitnessFetch : String → Option Page := fun u =>
  if u = "http://b" then none else some { title := "t", links := ["http://d"] }

/-- Witness for C8: four seed lines with one duplicate and one failing
fetch produce exactly the two successfully fetched distinct URLs. -/
theorem c8_list_mode_counts_witness :
    (crawlRun listWitnessCfg listWitnessFetch (fun _ _ => true) 5
        (initState listWitnessCfg)).lItems = ["http://a", "http://c"] :=
  ((c8_list_mode_counts listWitnessCfg (by decide) listWitnessFetch
      (fun _ _ => true) 5 (by decide)).2.1).trans (by decide)

/-- C10: mode selection depends only on the trimmed `urlList` being
non-blank; with both a non-blank `urlList` and a `startUrl` supplied, List
Mode is selected, the seeds are the deduplicated list, no
`allowed_domains` attribute is derived, and (unless the start URL happens
to be one of the list entries) the start URL is never processed nor even
pending, for any fetch behaviour and any number of scheduler rounds. -/
theorem c10_mode_selection (cfg : CrawlConfig) (hub : pyStrip cfg.urlList ≠ "") :
    (spiderInit cfg).bUrlListMode = true ∧
    (spiderInit cfg).seeds = lUrlList cfg ∧
    (spiderInit cfg).allowedDomains = none ∧
    (cfg.startUrl ∉ lUrlList cfg →
      ∀ (fetch : String → Option Page) (sched : String → Nat → Bool) (fuel : Nat),
        cfg.startUrl ∉ (crawlRun cfg fetch sched fuel (initState cfg)).lItems ∧
        ∀ p ∈ (crawlRun cfg fetch sched fuel (initState cfg)).pending,
          p.1 ≠ cfg.startUrl) := by
  have hmode : bUrlListMode cfg = true := by simp [bUrlListMode, hub]
  refine ⟨by simp [spiderInit, hmode], by simp [spiderInit, hmode],
    by simp [spiderInit, hmode], ?_⟩
  intro hns fetch sched fuel
  have hinit : initState cfg =
      ⟨lUrlList cfg, (lUrlList cfg).map (fun u => (u, 0)), []⟩ := by
    simp [initState, hmode]
  have hsub := listMode_run_subset cfg hmode fetch sched fuel (initState cfg)
    (by rw [hinit]
        intro p hp
        rcases List.mem_map.mp hp with ⟨u, hu, rfl⟩
        exact hu)
    (by rw [hinit]; intro u hu; exact absurd hu (List.not_mem_nil u))
  constructor
  · intro hmem
    exact hns (hsub.2 _ hmem)
  · intro p hp hpe
    exact hns (hpe ▸ hsub.1 p hp)

def c10WitnessCfg : CrawlConfig :=
  { urlList := "http://a\nhttp://b", startUrl := "http://start" }

/-- Witness for C10 at a concrete configuration carrying both a `urlList`
and a `startUrl`. -/
theorem c10_mode_selection_witness :
    (spiderInit c10WitnessCfg).allowedDomains = none ∧
    "http://start" ∉
      (crawlRun c10WitnessCfg (fun _ => some {}) (fun _ _ => true) 3
        (initState c10WitnessCfg)).lItems :=
  ⟨(c10_mode_selection c10WitnessCfg (by decide)).2.2.1,
   ((c10_mode_selection c10WitnessCfg (by decide)).2.2.2 (by decide)
      (fun _ => some {}) (fun _ _ => true) 3).1⟩

/-! ## Crawl-mode bounds (C1) -/

/-- `enqueueLinks` grows the visited set, by at most one entry per offered
link, and schedules at most as many requests as it adds visited entries. -/
theorem enqueueLinks_bounds (cfg : CrawlConfig) (sched : String → Nat → Bool)
    (dep : Nat) :
    ∀ (links vis : List String),
      vis.length ≤ (enqueueLinks cfg sched dep vis links).1.length ∧
      (enqueueLinks cfg sched dep vis links).1.length ≤ vis.length + links.length ∧
      vis.length + (enqueueLinks cfg sched dep vis links).2.length
        ≤ (enqueueLinks cfg sched dep vis links).1.length := by
  intro links
  induction links with
  | nil => intro vis; simp [enqueueLinks]
  | cons u us ih =>
      intro vis
      rw [enqueueLinks]
      split_ifs with h1 h2 h3
      · obtain ⟨a, b, c⟩ := ih vis
        exact ⟨a, by simp only [List.length_cons]; omega, c⟩
      · obtain ⟨a, b, c⟩ := ih vis
        exact ⟨a, by simp only [List.length_cons]; omega, c⟩
      · obtain ⟨a, b, c⟩ := ih (vis ++ [u])
        simp only [List.length_append, List.length_singleton] at a b c
        dsimp only
        refine ⟨by omega, ?_, ?_⟩
        · simp only [List.length_cons]; omega
        · simp only [List.length_append, List.length_cons, List.length_nil]; omega
      · obtain ⟨a, b, c⟩ := ih (vis ++ [u])
        simp only [List.length_append, List.length_singleton] at a b c
        dsimp only
        refine ⟨by omega, ?_, ?_⟩
        · simp only [List.length_cons]; omega
        · simp only [List.length_append, List.length_cons, List.length_nil]; omega

/-- One scheduler round preserves the two counting invariants of a
Crawl-Mode run: items plus still-pending requests never exceed the visited
set, and the visited set stays under `max 1 (maxUrls - 1 + L)` when every
page offers at most `L` distinct links. -/
theorem crawlStep_invariants (cfg : CrawlConfig) (fetch : String → Option Page)
    (sched : String → Nat → Bool) (L : Nat)
    (hL : ∀ u p, fetch u = some p → (dedupKeepFirst [] p.links).length ≤ L)
    (hmode : bUrlListMode cfg = false) (st : CrawlState)
    (h1 : st.lItems.length + st.pending.length ≤ st.lUrlSet.length)
    (h2 : st.lUrlSet.length ≤ max 1 (cfg.maxUrls - 1 + L)) :
    ((crawlStep cfg fetch sched st).lItems.length +
        (crawlStep cfg fetch sched st).pending.length ≤
        (crawlStep cfg fetch sched st).lUrlSet.length) ∧
    (crawlStep cfg fetch sched st).lUrlSet.length ≤ max 1 (cfg.maxUrls - 1 + L) := by
  match hst : st.pending with
  | [] =>
      have hstep : crawlStep cfg fetch sched st = st := by simp [crawlStep, hst]
      rw [hstep]
      exact ⟨h1, h2⟩
  | (u, dep) :: rest =>
      rw [hst, List.length_cons] at h1
      cases hf : fetch u with
      | none =>
          have hstep : crawlStep cfg fetch sched st = { st with pending := rest } := by
            simp [crawlStep, hst, hf]
          rw [hstep]
          dsimp only
          exact ⟨by omega, h2⟩
      | some page =>
          by_cases hcap : st.lUrlSet.length < cfg.maxUrls
          · have hstep : crawlStep cfg fetch sched st =
                { lUrlSet := (enqueueLinks cfg sched dep st.lUrlSet
                    (dedupKeepFirst [] page.links)).1,
                  pending := rest ++ (enqueueLinks cfg sched dep st.lUrlSet
                    (dedupKeepFirst [] page.links)).2,
                  lItems := st.lItems ++ [u] } := by
              simp [crawlStep, hst, hf, hmode, hcap]
            obtain ⟨a, b, c⟩ :=
              enqueueLinks_bounds cfg sched dep (dedupKeepFirst [] page.links) st.lUrlSet
            have hlinks := hL u page hf
            rw [hstep]
            dsimp only
            constructor
            · simp only [List.length_append, List.length_cons, List.length_nil]
              omega
            · refine le_trans ?_ (le_max_right 1 (cfg.maxUrls - 1 + L))
              omega
          · have hstep : crawlStep cfg fetch sched st =
                { lUrlSet := st.lUrlSet, pending := rest, lItems := st.lItems ++ [u] } := by
              simp [crawlStep, hst, hf, hmode, hcap]
            rw [hstep]
            dsimp only
            constructor
            · simp only [List.length_append, List.length_cons, List.length_nil]
              omega
            · exact h2

/-- C1 counterexample: Crawl Mode with `maxUrls = 2` and a start page
carrying three fresh same-site links produces four page records — the cap
is checked once per page, before the whole per-link loop, so the visited
set overshoots and `|PageRecords| ≤ maxUrls` fails. -/
def crawlCexCfg : CrawlConfig := { startUrl := "http://e.com/", maxUrls := 2 }

def crawlCexFetch : String → Option Page := fun u =>
  if u = "http://e.com/" then
    some { title := "E", links := ["http://e.com/a", "http://e.com/b", "http://e.com/c"] }
  else if u = "http://e.com/a" || u = "http://e.com/b" || u = "http://e.com/c" then
    some { title := "x", links := [] }
  else none

theorem c1_records_exceed_maxUrls :
    bUrlListMode crawlCexCfg = false ∧
    crawlCexCfg.maxUrls = 2 ∧
    (crawlRun crawlCexCfg crawlCexFetch (fun _ d => d ≤ 3) 10
        (initState crawlCexCfg)).lItems.length = 4 ∧
    ¬((crawlRun crawlCexCfg crawlCexFetch (fun _ d => d ≤ 3) 10
        (initState crawlCexCfg)).lItems.length ≤ crawlCexCfg.maxUrls) := by decide

/-- C1 amended: once the visited set has reached `maxUrls` a processed
page enqueues nothing (the visited set is left unchanged and the pending
queue only shrinks); the visited set is monotonically non-decreasing; but
because the cap is checked once per page before the per-link loop, the
record count is only bounded by `max 1 (maxUrls - 1 + L)` for a per-page
deduplicated-link bound `L`, not by `maxUrls` itself. -/
theorem c1_cap_and_record_bound :
    (∀ (cfg : CrawlConfig) (fetch : String → Option Page)
        (sched : String → Nat → Bool) (st : CrawlState),
        bUrlListMode cfg = false → cfg.maxUrls ≤ st.lUrlSet.length →
        (crawlStep cfg fetch sched st).lUrlSet = st.lUrlSet ∧
        (crawlStep cfg fetch sched st).pending = st.pending.tail) ∧
    (∀ (cfg : CrawlConfig) (fetch : String → Option Page)
        (sched : String → Nat → Bool) (st : CrawlState),
        st.lUrlSet.length ≤ (crawlStep cfg fetch sched st).lUrlSet.length) ∧
    (∀ (cfg : CrawlConfig) (fetch : String → Option Page)
        (sched : String → Nat → Bool) (L fuel : Nat),
        bUrlListMode cfg = false →
        (∀ u p, fetch u = some p → (dedupKeepFirst [] p.links).length ≤ L) →
        (crawlRun cfg fetch sched fuel (initState cfg)).lItems.length ≤
          max 1 (cfg.maxUrls - 1 + L)) := by
  refine ⟨?_, ?_, ?_⟩
  · intro cfg fetch sched st hmode hcap
    match hst : st.pending with
    | [] => simp [crawlStep, hst]
    | (u, dep) :: rest =>
        cases hf : fetch u with
        | none => simp [crawlStep, hst, hf]
        | some page =>
            have hnot : ¬(st.lUrlSet.length < cfg.maxUrls) := by omega
            simp [crawlStep, hst, hf, hmode, hnot]
  · intro cfg fetch sched st
    match hst : st.pending with
    | [] =>
        have hstep : crawlStep cfg fetch sched st = st := by simp [crawlStep, hst]
        rw [hstep]
    | (u, dep) :: rest =>
        cases hf : fetch u with
        | none =>
            have hstep : crawlStep cfg fetch sched st = { st with pending := rest } := by
              simp [crawlStep, hst, hf]
            rw [hstep]
        | some page =>
            cases hm : bUrlListMode cfg with
            | true =>
                have hstep : crawlStep cfg fetch sched st =
                    { lUrlSet := st.lUrlSet, pending := rest,
                      lItems := st.lItems ++ [u] } := by
                  simp [crawlStep, hst, hf, hm]
                rw [hstep]
            | false =>
                by_cases hcap : st.lUrlSet.length < cfg.maxUrls
                · have hstep : crawlStep cfg fetch sched st =
                      { lUrlSet := (enqueueLinks cfg sched dep st.lUrlSet
                          (dedupKeepFirst [] page.links)).1,
                        pending := rest ++ (enqueueLinks cfg sched dep st.lUrlSet
                          (dedupKeepFirst [] page.links)).2,
                        lItems := st.lItems ++ [u] } := by
                    simp [crawlStep, hst, hf, hm, hcap]
                  rw [hstep]
                  exact (enqueueLinks_bounds cfg sched dep
                    (dedupKeepFirst [] page.links) st.lUrlSet).1
                · have hstep : crawlStep cfg fetch sched st =
                      { lUrlSet := st.lUrlSet, pending := rest,
                        lItems := st.lItems ++ [u] } := by
                    simp [crawlStep, hst, hf, hm, hcap]
                  rw [hstep]
  · intro cfg fetch sched L fuel hmode hL
    have hrun : ∀ (n : Nat) (st : CrawlState),
        st.lItems.length + st.pending.length ≤ st.lUrlSet.length →
        st.lUrlSet.length ≤ max 1 (cfg.maxUrls - 1 + L) →
        (crawlRun cfg fetch sched n st).lItems.length +
            (crawlRun cfg fetch sched n st).pending.length ≤
            (crawlRun cfg fetch sched n st).lUrlSet.length ∧
        (crawlRun cfg fetch sched n st).lUrlSet.length ≤
          max 1 (cfg.maxUrls - 1 + L) := by
      intro n
      induction n with
      | zero => intro st a b; exact ⟨a, b⟩
      | succ k ih =>
          intro st a b
          rw [crawlRun]
          obtain ⟨a2, b2⟩ := crawlStep_invariants cfg fetch sched L hL hmode st a b
          exact ih _ a2 b2
    have hinit : initState cfg = ⟨[cfg.startUrl], [(cfg.startUrl, 0)], []⟩ := by
      simp [initState, hmode]
    obtain ⟨hA, hB⟩ := hrun fuel (initState cfg)
      (by rw [hinit]; simp)
      (by rw [hinit]; simp only [List.length_singleton]; exact le_max_left 1 _)
    omega

/-- Witness for the amended C1 bound at the counterexample configuration:
with `maxUrls = 2` and at most 3 deduplicated links per page, the record
count is bounded by `max 1 (2 - 1 + 3) = 4` (and indeed reaches it). -/
theorem c1_cap_and_record_bound_witness :
    (crawlRun crawlCexCfg crawlCexFetch (fun _ d => d ≤ 3) 10
        (initState crawlCexCfg)).lItems.length ≤
      max 1 (crawlCexCfg.maxUrls - 1 + 3) :=
  c1_cap_and_record_bound.2.2 crawlCexCfg crawlCexFetch (fun _ d => d ≤ 3) 3 10
    (by decide)
    (by
      intro u p hup
      unfold crawlCexFetch at hup
      split_ifs at hup <;> cases hup <;> decide)

/-! ## The `updated` resolution claims (C5) -/

theorem fmtDate_ne_empty (y m d : Nat) : fmtDate y m d ≠ "" := by
  intro h
  have hd := congrArg String.data h
  exact fmtDateChars_ne_nil y m d hd

/-- C5 counterexample: the normalizer strips surrounding whitespace before
trying the formats and returns the *stripped* string on a miss, so a meta
value `" not a date "` yields `updated = "not a date"`, not the raw meta
string verbatim. -/
theorem c5_raw_meta_not_verbatim :
    resolveUpdated (fun _ => none)
        { lastModifiedHeader := none, metaLastModified := " not a date ",
          metaArticleModifiedTime := "", metaLastModified2 := "", metaModified := "" }
      = "not a date" ∧
    (" not a date " : String) ≠ "not a date" :=
  ⟨by decide, by decide⟩

/-- Generic form of the `if not sUpdatedDate` cascade: starting from
`prev`, each candidate `x` is consulted only while the accumulator is
still empty, replaced by `f x` when `x` is non-empty. -/
def cascadeAux (f : String → String) : String → List String → String
  | prev, [] => prev
  | prev, x :: xs =>
      cascadeAux f (if prev = "" then (if x ≠ "" then f x else prev) else prev) xs

theorem cascadeAux_stable (f : String → String) :
    ∀ (xs : List String) (prev : String), prev ≠ "" → cascadeAux f prev xs = prev := by
  intro xs
  induction xs with
  | nil => intro prev _; rfl
  | cons x xs ih =>
      intro prev h
      rw [cascadeAux, if_neg h]
      exact ih prev h

theorem cascadeAux_empty (f : String → String) :
    ∀ xs : List String,
      cascadeAux f "" xs
        = firstNonempty (xs.map (fun x => if x = "" then "" else f x)) := by
  intro xs
  induction xs with
  | nil => rfl
  | cons x xs ih =>
      rw [cascadeAux, if_pos rfl, List.map_cons, firstNonempty]
      by_cases hx : x = ""
      · rw [if_neg (by simp [hx]), if_pos hx, if_neg (by simp)]
        exact ih
      · rw [if_pos hx, if_neg hx]
        by_cases hfx : f x = ""
        · rw [hfx, if_neg (by simp)]
          exact ih
        · rw [if_pos hfx]
          exact cascadeAux_stable f xs (f x) hfx

/-- The nested `if not sUpdatedDate` cascade over four candidates equals a
first-non-empty selection, for arbitrary candidate strings and an
arbitrary normalizer `f`. -/
theorem metaCascade (f : String → String) (s0 a b c d : String) :
    (if s0 = "" then
       (let s1 := if a ≠ "" then f a else s0
        let s2 := if s1 = "" then (if b ≠ "" then f b else s1) else s1
        let s3 := if s2 = "" then (if c ≠ "" then f c else s2) else s2
        if s3 = "" then (if d ≠ "" then f d else s3) else s3)
     else s0)
    = firstNonempty [s0, if a = "" then "" else f a, if b = "" then "" else f b,
        if c = "" then "" else f c, if d = "" then "" else f d] := by
  have hcons : ∀ l : List String, firstNonempty ("" :: l) = firstNonempty l := by
    intro l; rw [firstNonempty]; simp
  by_cases h0 : s0 = ""
  · subst h0
    rw [if_pos rfl, hcons]
    exact cascadeAux_empty f [a, b, c, d]
  · rw [if_neg h0, firstNonempty, if_pos h0]

/-- C5 amended: `updated` is resolved by the header-then-four-metas chain,
first non-empty result wins with no blending; a parseable header short-
circuits the metas; an unparseable header behaves as an absent one; and on
a normalization miss the *trimmed* meta string is used rather than being
discarded (a whitespace-only meta value therefore normalizes to empty and
the chain moves on). -/
theorem c5_updated_resolution :
    (∀ rfc2822 pg, resolveUpdated rfc2822 pg = specUpdatedChain rfc2822 pg) ∧
    (∀ (rfc2822 : String → Option (Nat × Nat × Nat)) (pg : PageDateSignals) hv ymd,
        pg.lastModifiedHeader = some hv → rfc2822 hv = some ymd →
        resolveUpdated rfc2822 pg = fmtDate ymd.1 ymd.2.1 ymd.2.2) ∧
    (∀ (rfc2822 : String → Option (Nat × Nat × Nat)) (pg : PageDateSignals) hv,
        pg.lastModifiedHeader = some hv → rfc2822 hv = none →
        resolveUpdated rfc2822 pg =
          resolveUpdated rfc2822 { pg with lastModifiedHeader := none }) ∧
    (∀ s, lDateFormats.findSome? (fun f => strptimeF f (stripChars s.data)) = none →
        parseAndFormatDate s = pyStrip s) := by
  refine ⟨?_, ?_, ?_, ?_⟩
  · intro rfc2822 pg
    rw [resolveUpdated, specUpdatedChain]
    exact metaCascade parseAndFormatDate (headerUpdated rfc2822 pg)
      pg.metaLastModified pg.metaArticleModifiedTime pg.metaLastModified2 pg.metaModified
  · intro rfc2822 pg hv ymd hhv hymd
    have hs0 : headerUpdated rfc2822 pg = fmtDate ymd.1 ymd.2.1 ymd.2.2 := by
      simp [headerUpdated, hhv, hymd]
    rw [resolveUpdated, hs0, if_neg (fmtDate_ne_empty ymd.1 ymd.2.1 ymd.2.2)]
  · intro rfc2822 pg hv hhv hrfc
    have hs0 : headerUpdated rfc2822 pg = "" := by simp [headerUpdated, hhv, hrfc]
    have hs1 : headerUpdated rfc2822 { pg with lastModifiedHeader := none } = "" := by
      simp [headerUpdated]
    simp only [resolveUpdated]
    rw [hs0, hs1]
  · intro s h
    by_cases ht : stripChars s.data = []
    · simp only [parseAndFormatDate, ht, if_pos, pyStrip]
    · simp only [parseAndFormatDate, ht, if_neg, h, pyStrip]
      simp [ht, h]

/-- Witness for C5 at concrete inputs: a parseable header short-circuits,
and an input matching no format normalizes to its own stripped form. -/
theorem c5_updated_resolution_witness :
    resolveUpdated (fun _ => some (2025, 3, 18))
        { lastModifiedHeader := some "Tue, 18 Mar 2025 00:00:00 GMT" } = "2025-03-18" ∧
    parseAndFormatDate "  nope  " = pyStrip "  nope  " :=
  ⟨(c5_updated_resolution.2.1 (fun _ => some (2025, 3, 18))
      { lastModifiedHeader := some "Tue, 18 Mar 2025 00:00:00 GMT" }
      "Tue, 18 Mar 2025 00:00:00 GMT" (2025, 3, 18) rfl rfl).trans (by decide),
   c5_updated_resolution.2.2.2 "  nope  " (by decide)⟩

end GSL
